import Mathlib

/-!
Reference-counted `Pointer<T>` with a per-type registry (`gc_details.h`, `gc_pointer.h`).

Shallow embedding of the registry `refContainer`, of the record type `PtrDetails<T>`
and of the lifecycle operations of `Pointer<T, size>`.

Modelling conventions.

* An address `T*` is a natural number, `0` being the null pointer.
* `unsigned` fields hold naturals below `UINT_MOD = 2^32`; `++` is taken modulo `UINT_MOD`.
* The static list `refContainer` is a `List PtrDetails`, passed explicitly.
* A list iterator is a position in the list; `end()` is the position `length`.
  Reading a field through `end()` has no defined result: an operation that does so
  yields `Fault.endDeref`.
* `delete` and `delete[]` are recorded as events in a deallocation log.
* `showlist` (console output) and the `atexit` registration guarded by `first`
  have no effect on the registry and are left out.
-/

namespace GC

/-- Raw address `T*`; `0` is the null pointer. -/
abbrev Addr := Nat

/-- Number of values of the type `unsigned`; its arithmetic is modulo this number. -/
def UINT_MOD : Nat := 4294967296

/-- Record stored in the registry: class `PtrDetails<T>` of `gc_details.h`. -/
structure PtrDetails where
  refcount : Nat
  memPtr : Addr
  isArray : Bool
  arraySize : Nat
deriving DecidableEq, Repr

/-- Constructor `PtrDetails(T *ptr, unsigned size = 0)`: the count starts at 1 and
`isArray` is set exactly when `size > 0`. -/
def PtrDetails.ctor (ptr : Addr) (size : Nat) : PtrDetails :=
  { refcount := 1, memPtr := ptr, isArray := decide (size > 0), arraySize := size }

/-- Comparison `operator==(const PtrDetails&, const PtrDetails&)`: addresses only. -/
def PtrDetails.opEq (ob1 ob2 : PtrDetails) : Bool :=
  ob1.memPtr == ob2.memPtr

/-- Data members of a handle `Pointer<T, size>`: `addr`, `isArray`, `arraySize`. -/
structure Pointer where
  addr : Addr
  isArray : Bool
  arraySize : Nat
deriving DecidableEq, Repr

/-- Ways in which an operation fails to have a defined result. -/
inductive Fault where
  /-- A field was accessed through the iterator `refContainer.end()`. -/
  | endDeref
  /-- A scenario step named a handle that is not live (not a behaviour of the code). -/
  | noHandle
  /-- A member of the pointee was accessed through the null address. -/
  | nullDeref
deriving DecidableEq, Repr

deriving instance DecidableEq for Except

/-- One deallocation: `delete[] addr` when `array` is true, `delete addr` otherwise. -/
structure Dealloc where
  addr : Addr
  array : Bool
deriving DecidableEq, Repr

/-- Lookup `Pointer::findPtrInfo(T *ptr)`: position of the first record whose `memPtr` is
`ptr`, or the length of the list (`end()`) when there is none. -/
def findPtrInfo : List PtrDetails → Addr → Nat
  | [], _ => 0
  | d :: ds, ptr => if d.memPtr = ptr then 0 else findPtrInfo ds ptr + 1

/-- Increment `x++` on an `unsigned`. -/
def uincr (x : Nat) : Nat := (x + 1) % UINT_MOD

/-- Constructor `Pointer(T *t)`. The record found by the lookup is read through the
iterator without a test against `end()`; a count of 0 read there appends a new record,
any other count is incremented. The handle gets `addr = t`, `arraySize = 0`,
`isArray = false`. -/
def Pointer.ctor (reg : List PtrDetails) (t : Addr) :
    Except Fault (List PtrDetails × Pointer) :=
  let ptr := findPtrInfo reg t
  match reg[ptr]? with
  | none => Except.error Fault.endDeref
  | some d =>
    let reg1 :=
      if d.refcount = 0 then reg ++ [PtrDetails.ctor t 0]
      else reg.set ptr { d with refcount := uincr d.refcount }
    Except.ok (reg1, { addr := t, isArray := false, arraySize := 0 })

/-- Copy constructor `Pointer(const Pointer &ob)`. -/
def Pointer.copyCtor (reg : List PtrDetails) (ob : Pointer) :
    Except Fault (List PtrDetails × Pointer) :=
  let ptr := findPtrInfo reg ob.addr
  match reg[ptr]? with
  | none => Except.error Fault.endDeref
  | some d =>
    let isArray := decide (ob.arraySize > 0)
    Except.ok
      (reg.set ptr
        { d with refcount := uincr d.refcount, arraySize := ob.arraySize, isArray := isArray },
       { addr := ob.addr, isArray := isArray, arraySize := ob.arraySize })

/-- The `for` loop of `collect`: the first record whose `refcount` is not `> 0`, or `none`
when the loop reaches `end()`. -/
def scanZero : List PtrDetails → Option PtrDetails
  | [] => none
  | d :: ds => if d.refcount > 0 then scanZero ds else some d

/-- Library call `refContainer.remove(v)`: erases every element equal to `v` under
`operator==`. -/
def listRemove (v : PtrDetails) (reg : List PtrDetails) : List PtrDetails :=
  reg.filter (fun d => !(PtrDetails.opEq d v))

/-- The deallocation performed for a record found with count 0: none for the null address,
`delete[]` when `isArray`, `delete` otherwise. -/
def deallocOf (d : PtrDetails) : List Dealloc :=
  if d.memPtr ≠ 0 then [{ addr := d.memPtr, array := d.isArray }] else []

/-- Variables of `collect` between two scans: the flag `freed`, the registry, and the
deallocations performed so far. -/
structure CollectState where
  freed : Bool
  reg : List PtrDetails
  log : List Dealloc
deriving DecidableEq, Repr

/-- The `do ... while (ptr != refContainer.end())` loop of `collect`, with a bound on the
number of scans. A scan that finds a record sets `freed`, deallocates, removes, and leaves
`ptr` on the erased node, which is not `end()`, so the loop scans again; a scan that reaches
`end()` leaves the loop. -/
def collectLoop : Nat → CollectState → CollectState
  | 0, st => st
  | n + 1, st =>
    match scanZero st.reg with
    | none => st
    | some d =>
      collectLoop n
        { freed := true, reg := listRemove d st.reg, log := st.log ++ deallocOf d }

/-- Sweep `Pointer::collect()`. Every scan but the last removes a record, so
`length + 1` scans are enough (`collect_done`, `collectLoop_fuel`). -/
def collect (reg : List PtrDetails) : CollectState :=
  collectLoop (reg.length + 1) { freed := false, reg := reg, log := [] }

/-- Destructor `~Pointer()`: the record found by the lookup is read through the iterator
without a test against `end()`; a non-zero count is decremented; then `collect()` runs.
The result is the registry and the deallocations of that sweep. -/
def Pointer.dtor (reg : List PtrDetails) (self : Pointer) :
    Except Fault (List PtrDetails × List Dealloc) :=
  let ptr := findPtrInfo reg self.addr
  match reg[ptr]? with
  | none => Except.error Fault.endDeref
  | some d =>
    let reg1 := if d.refcount ≠ 0 then reg.set ptr { d with refcount := d.refcount - 1 } else reg
    let r := collect reg1
    Except.ok (r.reg, r.log)

/-- A program state: the registry of one instantiation, its live handles in creation
order, and the deallocations performed so far. -/
structure State where
  reg : List PtrDetails
  handles : List Pointer
  log : List Dealloc
deriving DecidableEq, Repr

/-- The state before any handle exists. -/
def State.init : State := { reg := [], handles := [], log := [] }

/-- Lifecycle operations of a client program; handles are named by their position among
the live handles. -/
inductive Op where
  | construct (t : Addr)
  | copy (i : Nat)
  | destroy (i : Nat)
deriving DecidableEq, Repr

/-- One lifecycle operation. -/
def step (s : State) : Op → Except Fault State
  | Op.construct t =>
    match Pointer.ctor s.reg t with
    | Except.error e => Except.error e
    | Except.ok (reg1, h) => Except.ok { s with reg := reg1, handles := s.handles ++ [h] }
  | Op.copy i =>
    match s.handles[i]? with
    | none => Except.error Fault.noHandle
    | some ob =>
      match Pointer.copyCtor s.reg ob with
      | Except.error e => Except.error e
      | Except.ok (reg1, h) => Except.ok { s with reg := reg1, handles := s.handles ++ [h] }
  | Op.destroy i =>
    match s.handles[i]? with
    | none => Except.error Fault.noHandle
    | some h =>
      match Pointer.dtor s.reg h with
      | Except.error e => Except.error e
      | Except.ok (reg1, frees) =>
        Except.ok { reg := reg1, handles := s.handles.eraseIdx i, log := s.log ++ frees }

/-- A sequence of lifecycle operations, stopping at the first fault. -/
def run : List Op → State → Except Fault State
  | [], s => Except.ok s
  | op :: ops, s =>
    match step s op with
    | Except.error e => Except.error e
    | Except.ok s1 => run ops s1

/-- Decrement `x--` on an `unsigned`, without a guard: 0 wraps to `UINT_MOD - 1`. -/
def udecr (x : Nat) : Nat := (x + UINT_MOD - 1) % UINT_MOD

/-- Constructor `Pointer()`. Its body is the expression statement `Pointer(NULL);`: a
temporary handle is built from the null address by `Pointer(T*)` and destroyed at the end
of the statement. No member of the handle under construction is written, so that handle
keeps `uninit`, the indeterminate content of its storage. The result is the registry, the
handle, and the deallocations of the sweep run by the temporary. -/
def Pointer.defaultCtor (uninit : Pointer) (reg : List PtrDetails) :
    Except Fault (List PtrDetails × Pointer × List Dealloc) :=
  match Pointer.ctor reg 0 with
  | Except.error e => Except.error e
  | Except.ok (reg1, tmp) =>
    match Pointer.dtor reg1 tmp with
    | Except.error e => Except.error e
    | Except.ok (reg2, frees) => Except.ok (reg2, uninit, frees)

/-- Assignment `T *operator=(T *t)`. The statement `delete this` runs the destructor of the
handle (the release of the storage of the handle itself is outside the model); then the
lookup, the test of `refcount` and the insertion or increment of `Pointer(T*)` are repeated
for `t`; then `addr = t` and `isArray = false` (`arraySize` is not written). The first
component lists the deallocations performed, also when the operation then faults. -/
def Pointer.assignRaw (reg : List PtrDetails) (self : Pointer) (t : Addr) :
    List Dealloc × Except Fault (List PtrDetails × Pointer) :=
  match Pointer.dtor reg self with
  | Except.error e => ([], Except.error e)
  | Except.ok (reg1, frees) =>
    let ptr := findPtrInfo reg1 t
    match reg1[ptr]? with
    | none => (frees, Except.error Fault.endDeref)
    | some d =>
      let reg2 :=
        if d.refcount = 0 then reg1 ++ [PtrDetails.ctor t 0]
        else reg1.set ptr { d with refcount := uincr d.refcount }
      (frees, Except.ok (reg2, { self with addr := t, isArray := false }))

/-- What `operator=(Pointer&)` leaves: the registry and the two handles involved. -/
structure AssignState where
  reg : List PtrDetails
  self : Pointer
  rv : Pointer
deriving DecidableEq, Repr

/-- Assignment `Pointer &operator=(Pointer &rv)`, statement by statement.
`Pointer ptr;` default-constructs a local handle; `p = findPtrInfo(addr); p->refcount--;`
decrements, without a guard, the record found for the address of the assigned handle;
`rv->refcount++` goes through `operator->` of `rv` and so writes a member of the pointee at
`rv.addr`, not a record and not `rv` (it compiles only for an element type with such a
member); `ptr.addr = rv.addr` writes the local handle; on return the local handle is
destroyed, which runs its destructor on `rv.addr`. No member of the assigned handle and no
member of `rv` is written. The first component lists the deallocations performed. -/
def Pointer.assignPtr (uninit : Pointer) (reg : List PtrDetails) (self rv : Pointer) :
    List Dealloc × Except Fault AssignState :=
  match Pointer.defaultCtor uninit reg with
  | Except.error e => ([], Except.error e)
  | Except.ok (reg1, ptr0, frees1) =>
    let p := findPtrInfo reg1 self.addr
    match reg1[p]? with
    | none => (frees1, Except.error Fault.endDeref)
    | some d =>
      let reg2 := reg1.set p { d with refcount := udecr d.refcount }
      if rv.addr = 0 then (frees1, Except.error Fault.nullDeref)
      else
        match Pointer.dtor reg2 { ptr0 with addr := rv.addr } with
        | Except.error e => (frees1, Except.error e)
        | Except.ok (reg3, frees2) =>
          (frees1 ++ frees2, Except.ok { reg := reg3, self := self, rv := rv })

/-- The write `ptr->refcount = 0` of `shutdown`. -/
def zeroRec (e : PtrDetails) : PtrDetails :=
  { e with refcount := 0 }

/-- Function `Pointer::shutdown()`: returns at once on an empty registry; otherwise sets
every count to 0 and runs `collect()`. The result is the registry and the deallocations. -/
def shutdown (reg : List PtrDetails) : List PtrDetails × List Dealloc :=
  if reg.length = 0 then (reg, [])
  else
    let r := collect (reg.map zeroRec)
    (r.reg, r.log)

/-- The records at which the successive scans of `collectLoop` stop, in order. -/
def collectFound : Nat → List PtrDetails → List PtrDetails
  | 0, _ => []
  | n + 1, reg =>
    match scanZero reg with
    | none => []
    | some d => d :: collectFound n (listRemove d reg)

/-- Number of scans (executions of the `for` loop) that `collectLoop` performs. -/
def collectScans : Nat → List PtrDetails → Nat
  | 0, _ => 0
  | n + 1, reg =>
    match scanZero reg with
    | none => 1
    | some d => collectScans n (listRemove d reg) + 1

/-- The single front-to-back pass of the spec: each record with count 0 is deallocated and
removed, each record with a positive count is kept; the flag tells whether a record was
removed. -/
def singlePass : List PtrDetails → CollectState
  | [] => { freed := false, reg := [], log := [] }
  | d :: ds =>
    if d.refcount > 0 then
      { freed := (singlePass ds).freed, reg := d :: (singlePass ds).reg,
        log := (singlePass ds).log }
    else
      { freed := true, reg := (singlePass ds).reg, log := deallocOf d ++ (singlePass ds).log }

/-- The records with count 0, each address kept at its first such record only. -/
def zerosFirst : List PtrDetails → List PtrDetails
  | [] => []
  | d :: ds =>
    if d.refcount = 0 then
      d :: (zerosFirst ds).filter (fun x => !(PtrDetails.opEq x d))
    else zerosFirst ds

/-- Rewrite by `f` of the first record whose address is `t`: what a write through the
iterator returned by `findPtrInfo` does to the list. -/
def updFirst (t : Addr) (f : PtrDetails → PtrDetails) : List PtrDetails → List PtrDetails
  | [] => []
  | d :: ds => if d.memPtr = t then f d :: ds else d :: updFirst t f ds

/-- The write `ptr->refcount++` of `Pointer(T*)`. -/
def incrRec (e : PtrDetails) : PtrDetails :=
  { e with refcount := uincr e.refcount }

/-- The writes of the copy constructor to the record it found. -/
def copyRec (ob : Pointer) (e : PtrDetails) : PtrDetails :=
  { e with refcount := uincr e.refcount, arraySize := ob.arraySize,
           isArray := decide (ob.arraySize > 0) }

/-- The write `ptr->refcount--` of the destructor. -/
def decrRec (e : PtrDetails) : PtrDetails :=
  { e with refcount := e.refcount - 1 }

/-- The handle the copy constructor builds from `ob`. -/
def copyOf (ob : Pointer) : Pointer :=
  { addr := ob.addr, isArray := decide (ob.arraySize > 0), arraySize := ob.arraySize }

/-- Number of live handles whose `addr` is `a`. -/
def handleCount (hs : List Pointer) (a : Addr) : Nat :=
  hs.countP (fun h => decide (h.addr = a))

/-- No two records of the registry have the same address. -/
def Distinct (reg : List PtrDetails) : Prop :=
  (reg.map PtrDetails.memPtr).Nodup

/-- Every count is positive and stays below `UINT_MOD` after `k` more increments. -/
def Counted (reg : List PtrDetails) (k : Nat) : Prop :=
  ∀ r ∈ reg, 0 < r.refcount ∧ r.refcount + k < UINT_MOD

/-- Every live handle has a record for its address, and every record counts the live
handles on its address. -/
def Linked (s : State) : Prop :=
  (∀ h ∈ s.handles, ∃ r ∈ s.reg, r.memPtr = h.addr) ∧
  (∀ r ∈ s.reg, r.refcount = handleCount s.handles r.memPtr)

/-- Whether `a` is the address of some record of `reg` with count 0. -/
def zeroAddr (reg : List PtrDetails) (a : Addr) : Bool :=
  reg.any (fun z => decide (z.refcount = 0) && decide (z.memPtr = a))

/-- The registry a sweep leaves: the records whose address is not the address of a record
with count 0. -/
def sweepSpec (reg : List PtrDetails) : List PtrDetails :=
  reg.filter (fun d => !(zeroAddr reg d.memPtr))

/-! Section: Lookup -/

theorem findPtrInfo_none (reg : List PtrDetails) (t : Addr) :
    reg[findPtrInfo reg t]? = none ↔ ∀ r ∈ reg, r.memPtr ≠ t := by
  induction reg with
  | nil => simp [findPtrInfo]
  | cons d ds ih =>
    by_cases h : d.memPtr = t
    · simp [findPtrInfo, h]
    · simp [findPtrInfo, h, ih]

theorem findPtrInfo_some (reg : List PtrDetails) (t : Addr) (d : PtrDetails)
    (h : reg[findPtrInfo reg t]? = some d) : d ∈ reg ∧ d.memPtr = t := by
  induction reg with
  | nil => simp [findPtrInfo] at h
  | cons e es ih =>
    by_cases he : e.memPtr = t
    · simp [findPtrInfo, he] at h
      subst h
      simp [he]
    · simp [findPtrInfo, he] at h
      have := ih h
      simp [this]

theorem findPtrInfo_hit (reg : List PtrDetails) (t : Addr)
    (h : ∃ r ∈ reg, r.memPtr = t) : ∃ d, reg[findPtrInfo reg t]? = some d := by
  cases hd : reg[findPtrInfo reg t]? with
  | some d => exact ⟨d, rfl⟩
  | none =>
    obtain ⟨r, hr, hrt⟩ := h
    exact absurd hrt ((findPtrInfo_none reg t).1 hd r hr)

theorem set_findPtrInfo (reg : List PtrDetails) (t : Addr) (d : PtrDetails)
    (f : PtrDetails → PtrDetails) (h : reg[findPtrInfo reg t]? = some d) :
    reg.set (findPtrInfo reg t) (f d) = updFirst t f reg := by
  induction reg with
  | nil => simp [findPtrInfo] at h
  | cons e es ih =>
    by_cases he : e.memPtr = t
    · simp [findPtrInfo, he] at h
      subst h
      simp [findPtrInfo, updFirst, he]
    · simp [findPtrInfo, he] at h
      simp [findPtrInfo, updFirst, he, ih h]

theorem updFirst_length (t : Addr) (f : PtrDetails → PtrDetails) (reg : List PtrDetails) :
    (updFirst t f reg).length = reg.length := by
  induction reg with
  | nil => rfl
  | cons e es ih =>
    by_cases he : e.memPtr = t <;> simp [updFirst, he, ih]

theorem updFirst_addrs (t : Addr) (f : PtrDetails → PtrDetails)
    (hf : ∀ d, (f d).memPtr = d.memPtr) (reg : List PtrDetails) :
    (updFirst t f reg).map PtrDetails.memPtr = reg.map PtrDetails.memPtr := by
  induction reg with
  | nil => rfl
  | cons e es ih =>
    by_cases he : e.memPtr = t <;> simp [updFirst, he, ih, hf]

/-- Every record of the rewritten list is an old record with another address, an old
record behind the first match, or the rewritten first match. -/
theorem mem_updFirst (t : Addr) (f : PtrDetails → PtrDetails) (reg : List PtrDetails)
    (r : PtrDetails) (h : r ∈ updFirst t f reg) :
    r ∈ reg ∨ ∃ d ∈ reg, d.memPtr = t ∧ r = f d := by
  induction reg with
  | nil => simp [updFirst] at h
  | cons e es ih =>
    by_cases he : e.memPtr = t
    · simp [updFirst, he] at h
      rcases h with h | h
      · exact Or.inr ⟨e, by simp, he, h⟩
      · exact Or.inl (by simp [h])
    · simp [updFirst, he] at h
      rcases h with h | h
      · exact Or.inl (by simp [h])
      · rcases ih h with h1 | ⟨d, hd, hdt, hr⟩
        · exact Or.inl (by simp [h1])
        · exact Or.inr ⟨d, by simp [hd], hdt, hr⟩

/-- With pairwise distinct addresses, the rewritten list consists of the old records with
another address and of the rewritten record. -/
theorem mem_updFirst_nodup (t : Addr) (f : PtrDetails → PtrDetails) (reg : List PtrDetails)
    (hnd : (reg.map PtrDetails.memPtr).Nodup) (r : PtrDetails) (h : r ∈ updFirst t f reg) :
    (r ∈ reg ∧ r.memPtr ≠ t) ∨ ∃ d ∈ reg, d.memPtr = t ∧ r = f d := by
  induction reg with
  | nil => simp [updFirst] at h
  | cons e es ih =>
    simp only [List.map_cons, List.nodup_cons, List.mem_map, not_exists, not_and] at hnd
    by_cases he : e.memPtr = t
    · simp [updFirst, he] at h
      rcases h with h | h
      · exact Or.inr ⟨e, by simp, he, h⟩
      · refine Or.inl ⟨by simp [h], fun hr => hnd.1 r h (by rw [hr, he])⟩
    · simp [updFirst, he] at h
      rcases h with h | h
      · exact Or.inl ⟨by simp [h], by rw [h]; exact he⟩
      · rcases ih hnd.2 h with ⟨h1, h2⟩ | ⟨d, hd, hdt, hr⟩
        · exact Or.inl ⟨by simp [h1], h2⟩
        · exact Or.inr ⟨d, by simp [hd], hdt, hr⟩

/-- A record whose address is not `t` stays in the rewritten list. -/
theorem mem_updFirst_of_ne (t : Addr) (f : PtrDetails → PtrDetails) (reg : List PtrDetails)
    (r : PtrDetails) (hr : r ∈ reg) (hne : r.memPtr ≠ t) : r ∈ updFirst t f reg := by
  induction reg with
  | nil => simp at hr
  | cons e es ih =>
    by_cases he : e.memPtr = t
    · simp [updFirst, he]
      rcases List.mem_cons.1 hr with h | h
      · subst h; exact absurd he hne
      · exact Or.inr h
    · simp [updFirst, he]
      rcases List.mem_cons.1 hr with h | h
      · exact Or.inl h
      · exact Or.inr (ih h)

/-- The rewritten first match is in the rewritten list. -/
theorem mem_updFirst_hit (t : Addr) (f : PtrDetails → PtrDetails) (reg : List PtrDetails)
    (d : PtrDetails) (h : reg[findPtrInfo reg t]? = some d) : f d ∈ updFirst t f reg := by
  rw [← set_findPtrInfo reg t d f h]
  have hlt : findPtrInfo reg t < reg.length := by
    by_contra hge
    rw [List.getElem?_eq_none (by omega)] at h
    cases h
  exact List.mem_iff_getElem.2 ⟨findPtrInfo reg t, by simpa using hlt, by simp⟩

/-! Section: Sweep -/

theorem scanZero_none (reg : List PtrDetails) :
    scanZero reg = none ↔ ∀ d ∈ reg, d.refcount ≠ 0 := by
  induction reg with
  | nil => simp [scanZero]
  | cons e es ih =>
    by_cases he : e.refcount > 0
    · simp [scanZero, he, ih]; omega
    · simp [scanZero, he]; omega

theorem scanZero_some (reg : List PtrDetails) (d : PtrDetails) (h : scanZero reg = some d) :
    d ∈ reg ∧ d.refcount = 0 := by
  induction reg with
  | nil => simp [scanZero] at h
  | cons e es ih =>
    by_cases he : e.refcount > 0
    · simp [scanZero, he] at h
      have := ih h
      simp [this]
    · simp [scanZero, he] at h
      subst h
      exact ⟨by simp, by omega⟩

theorem scanZero_isSome (reg : List PtrDetails) :
    (scanZero reg).isSome = true ↔ ∃ d ∈ reg, d.refcount = 0 := by
  cases h : scanZero reg with
  | none =>
    have := (scanZero_none reg).1 h
    simp only [Option.isSome_none, Bool.false_eq_true, false_iff, not_exists, not_and]
    exact this
  | some d =>
    have := scanZero_some reg d h
    simp only [Option.isSome_some, true_iff]
    exact ⟨d, this⟩

theorem mem_listRemove (v r : PtrDetails) (reg : List PtrDetails) :
    r ∈ listRemove v reg ↔ r ∈ reg ∧ r.memPtr ≠ v.memPtr := by
  simp [listRemove, PtrDetails.opEq]

theorem listRemove_length_lt (v : PtrDetails) (reg : List PtrDetails) (hv : v ∈ reg) :
    (listRemove v reg).length < reg.length := by
  unfold listRemove
  apply List.length_filter_lt_length_iff_exists.2
  exact ⟨v, hv, by simp [PtrDetails.opEq]⟩

theorem zeroAddr_iff (reg : List PtrDetails) (a : Addr) :
    zeroAddr reg a = true ↔ ∃ z ∈ reg, z.refcount = 0 ∧ z.memPtr = a := by
  simp [zeroAddr]

theorem sweepSpec_of_no_zero (reg : List PtrDetails) (h : ∀ d ∈ reg, d.refcount ≠ 0) :
    sweepSpec reg = reg := by
  unfold sweepSpec
  apply List.filter_eq_self.2
  intro d _
  have : ¬ zeroAddr reg d.memPtr = true := by
    rw [zeroAddr_iff]
    rintro ⟨z, hz, hz0, _⟩
    exact h z hz hz0
  simpa using this

/-- Removing the records of one zero-count address does not change what the sweep leaves. -/
theorem sweepSpec_listRemove (reg : List PtrDetails) (d : PtrDetails)
    (hd : d ∈ reg) (hd0 : d.refcount = 0) : sweepSpec (listRemove d reg) = sweepSpec reg := by
  unfold sweepSpec
  conv_lhs => rw [show listRemove d reg = reg.filter (fun x => !(PtrDetails.opEq x d)) from rfl]
  rw [List.filter_filter]
  apply List.filter_congr
  intro x _
  by_cases hx : x.memPtr = d.memPtr
  · have h1 : zeroAddr reg x.memPtr = true := (zeroAddr_iff _ _).2 ⟨d, hd, hd0, hx.symm⟩
    have h3 : PtrDetails.opEq x d = true := by simp [PtrDetails.opEq, hx]
    rw [h1, h3]; simp
  · have h2 : zeroAddr (List.filter (fun x => !(PtrDetails.opEq x d)) reg) x.memPtr
        = zeroAddr reg x.memPtr := by
      rw [Bool.eq_iff_iff, zeroAddr_iff, zeroAddr_iff]
      constructor
      · rintro ⟨z, hz, hz0, hza⟩
        exact ⟨z, (List.mem_filter.1 hz).1, hz0, hza⟩
      · rintro ⟨z, hz, hz0, hza⟩
        refine ⟨z, List.mem_filter.2 ⟨hz, ?_⟩, hz0, hza⟩
        simp only [PtrDetails.opEq, Bool.not_eq_true', beq_eq_false_iff_ne, ne_eq]
        rw [hza]; exact hx
    have h3 : PtrDetails.opEq x d = false := by simp [PtrDetails.opEq, hx]
    rw [h2, h3]; simp

/-- With more scans allowed than there are records, the loop of `collect` ends with the
registry `sweepSpec`. -/
theorem collectLoop_reg (n : Nat) (st : CollectState) (h : st.reg.length < n) :
    (collectLoop n st).reg = sweepSpec st.reg := by
  induction n generalizing st with
  | zero => omega
  | succ n ih =>
    unfold collectLoop
    cases hs : scanZero st.reg with
    | none =>
      simp only
      exact (sweepSpec_of_no_zero _ ((scanZero_none _).1 hs)).symm
    | some d =>
      simp only
      obtain ⟨hd, hd0⟩ := scanZero_some _ _ hs
      have hlt := listRemove_length_lt d st.reg hd
      rw [ih _ (by simp only; omega)]
      exact sweepSpec_listRemove st.reg d hd hd0

theorem collect_reg (reg : List PtrDetails) : (collect reg).reg = sweepSpec reg :=
  collectLoop_reg _ _ (by simp)

/-- The loop ends because a scan reached `end()`: no record with count 0 is left. -/
theorem collect_done (reg : List PtrDetails) : scanZero (collect reg).reg = none := by
  rw [scanZero_none, collect_reg]
  intro d hd hd0
  unfold sweepSpec at hd
  obtain ⟨hmem, hz⟩ := List.mem_filter.1 hd
  have : zeroAddr reg d.memPtr = true := (zeroAddr_iff _ _).2 ⟨d, hmem, hd0, rfl⟩
  simp [this] at hz

/-- Two scan bounds above the number of records give the same result. -/
theorem collectLoop_fuel (n m : Nat) (st : CollectState) (hn : st.reg.length < n)
    (hm : st.reg.length < m) : collectLoop n st = collectLoop m st := by
  induction n generalizing m st with
  | zero => omega
  | succ n ih =>
    cases m with
    | zero => omega
    | succ m =>
      conv_lhs => unfold collectLoop
      conv_rhs => unfold collectLoop
      cases hs : scanZero st.reg with
      | none => rfl
      | some d =>
        simp only
        obtain ⟨hd, _⟩ := scanZero_some _ _ hs
        have hlt := listRemove_length_lt d st.reg hd
        exact ih _ _ (by simp only; omega) (by simp only; omega)

theorem collectLoop_freed (n : Nat) (st : CollectState) :
    (collectLoop (n + 1) st).freed = (st.freed || (scanZero st.reg).isSome) := by
  induction n generalizing st with
  | zero =>
    unfold collectLoop
    cases hs : scanZero st.reg <;> simp [collectLoop]
  | succ n ih =>
    unfold collectLoop
    cases hs : scanZero st.reg with
    | none => simp
    | some d => simp only; rw [ih]; simp

theorem collect_freed (reg : List PtrDetails) :
    (collect reg).freed = true ↔ ∃ d ∈ reg, d.refcount = 0 := by
  unfold collect
  rw [collectLoop_freed, ← scanZero_isSome]
  simp

/-- On a registry without a zero count the first scan reaches `end()`: nothing changes. -/
theorem collect_of_no_zero (reg : List PtrDetails) (h : ∀ d ∈ reg, d.refcount ≠ 0) :
    collect reg = { freed := false, reg := reg, log := [] } := by
  unfold collect collectLoop
  rw [(scanZero_none reg).2 h]

theorem sweepSpec_sublist (reg : List PtrDetails) : List.Sublist (sweepSpec reg) reg :=
  List.filter_sublist reg

theorem mem_sweepSpec (reg : List PtrDetails) (r : PtrDetails) :
    r ∈ sweepSpec reg ↔ r ∈ reg ∧ ∀ z ∈ reg, z.refcount = 0 → z.memPtr ≠ r.memPtr := by
  unfold sweepSpec
  rw [List.mem_filter]
  have : (!(zeroAddr reg r.memPtr)) = true ↔ ∀ z ∈ reg, z.refcount = 0 → z.memPtr ≠ r.memPtr := by
    rw [Bool.not_eq_true', ← Bool.not_eq_true, zeroAddr_iff]
    constructor
    · intro h z hz hz0 hza
      exact h ⟨z, hz, hz0, hza⟩
    · rintro h ⟨z, hz, hz0, hza⟩
      exact h z hz hz0 hza
  rw [this]

theorem sweepSpec_pos (reg : List PtrDetails) (r : PtrDetails) (h : r ∈ sweepSpec reg) :
    r.refcount ≠ 0 := by
  obtain ⟨hr, hz⟩ := (mem_sweepSpec reg r).1 h
  intro h0
  exact hz r hr h0 rfl

theorem sweepSpec_length_lt (reg : List PtrDetails) (h : ∃ d ∈ reg, d.refcount = 0) :
    (sweepSpec reg).length < reg.length := by
  obtain ⟨d, hd, hd0⟩ := h
  unfold sweepSpec
  apply List.length_filter_lt_length_iff_exists.2
  refine ⟨d, hd, ?_⟩
  have : zeroAddr reg d.memPtr = true := (zeroAddr_iff _ _).2 ⟨d, hd, hd0, rfl⟩
  simp [this]

/-! Section: The operations in terms of `updFirst` and `sweepSpec` -/

theorem ctor_miss (reg : List PtrDetails) (t : Addr) (h : ∀ r ∈ reg, r.memPtr ≠ t) :
    Pointer.ctor reg t = Except.error Fault.endDeref := by
  have := (findPtrInfo_none reg t).2 h
  simp [Pointer.ctor, this]

theorem ctor_hit_pos (reg : List PtrDetails) (t : Addr) (d : PtrDetails)
    (h : reg[findPtrInfo reg t]? = some d) (hpos : d.refcount ≠ 0) :
    Pointer.ctor reg t = Except.ok
      (updFirst t incrRec reg, { addr := t, isArray := false, arraySize := 0 }) := by
  rw [← set_findPtrInfo reg t d _ h]
  simp [Pointer.ctor, h, hpos, incrRec]

theorem ctor_hit_zero (reg : List PtrDetails) (t : Addr) (d : PtrDetails)
    (h : reg[findPtrInfo reg t]? = some d) (hzero : d.refcount = 0) :
    Pointer.ctor reg t = Except.ok
      (reg ++ [PtrDetails.ctor t 0], { addr := t, isArray := false, arraySize := 0 }) := by
  simp [Pointer.ctor, h, hzero]

theorem copyCtor_miss (reg : List PtrDetails) (ob : Pointer)
    (h : ∀ r ∈ reg, r.memPtr ≠ ob.addr) :
    Pointer.copyCtor reg ob = Except.error Fault.endDeref := by
  have := (findPtrInfo_none reg ob.addr).2 h
  simp [Pointer.copyCtor, this]

theorem copyCtor_hit (reg : List PtrDetails) (ob : Pointer) (d : PtrDetails)
    (h : reg[findPtrInfo reg ob.addr]? = some d) :
    Pointer.copyCtor reg ob = Except.ok
      (updFirst ob.addr (copyRec ob) reg, copyOf ob) := by
  rw [← set_findPtrInfo reg ob.addr d _ h]
  simp [Pointer.copyCtor, h, copyRec, copyOf]

theorem dtor_miss (reg : List PtrDetails) (self : Pointer)
    (h : ∀ r ∈ reg, r.memPtr ≠ self.addr) :
    Pointer.dtor reg self = Except.error Fault.endDeref := by
  have := (findPtrInfo_none reg self.addr).2 h
  simp [Pointer.dtor, this]

theorem dtor_hit_pos (reg : List PtrDetails) (self : Pointer) (d : PtrDetails)
    (h : reg[findPtrInfo reg self.addr]? = some d) (hpos : d.refcount ≠ 0) :
    Pointer.dtor reg self = Except.ok
      (sweepSpec (updFirst self.addr decrRec reg),
       (collect (updFirst self.addr decrRec reg)).log) := by
  rw [← set_findPtrInfo reg self.addr d _ h, ← collect_reg]
  simp [Pointer.dtor, h, hpos, decrRec]

theorem dtor_hit_zero (reg : List PtrDetails) (self : Pointer) (d : PtrDetails)
    (h : reg[findPtrInfo reg self.addr]? = some d) (hzero : d.refcount = 0) :
    Pointer.dtor reg self = Except.ok (sweepSpec reg, (collect reg).log) := by
  rw [← collect_reg]
  simp [Pointer.dtor, h, hzero]

/-! Section: Steps that succeed -/

theorem step_construct_ok (s s1 : State) (t : Addr) (hpos : ∀ r ∈ s.reg, r.refcount ≠ 0)
    (h : step s (Op.construct t) = Except.ok s1) :
    (∃ d ∈ s.reg, d.memPtr = t) ∧
    s1 = { s with reg := updFirst t incrRec s.reg,
                  handles := s.handles ++ [{ addr := t, isArray := false, arraySize := 0 }] } := by
  cases hd : s.reg[findPtrInfo s.reg t]? with
  | none =>
    have := ctor_miss s.reg t ((findPtrInfo_none _ _).1 hd)
    simp [step, this] at h
  | some d =>
    obtain ⟨hmem, hdt⟩ := findPtrInfo_some _ _ _ hd
    have := ctor_hit_pos s.reg t d hd (hpos d hmem)
    simp only [step, this, Except.ok.injEq] at h
    exact ⟨⟨d, hmem, hdt⟩, h.symm⟩

theorem step_copy_ok (s s1 : State) (i : Nat) (h : step s (Op.copy i) = Except.ok s1) :
    ∃ ob, s.handles[i]? = some ob ∧ (∃ d ∈ s.reg, d.memPtr = ob.addr) ∧
      s1 = { s with reg := updFirst ob.addr (copyRec ob) s.reg,
                    handles := s.handles ++ [copyOf ob] } := by
  cases hi : s.handles[i]? with
  | none => simp [step, hi] at h
  | some ob =>
    cases hd : s.reg[findPtrInfo s.reg ob.addr]? with
    | none =>
      have := copyCtor_miss s.reg ob ((findPtrInfo_none _ _).1 hd)
      simp [step, hi, this] at h
    | some d =>
      obtain ⟨hmem, hdt⟩ := findPtrInfo_some _ _ _ hd
      have := copyCtor_hit s.reg ob d hd
      simp only [step, hi, this, Except.ok.injEq] at h
      exact ⟨ob, rfl, ⟨d, hmem, hdt⟩, h.symm⟩

theorem step_destroy_ok (s s1 : State) (i : Nat) (hpos : ∀ r ∈ s.reg, r.refcount ≠ 0)
    (h : step s (Op.destroy i) = Except.ok s1) :
    ∃ hd, s.handles[i]? = some hd ∧ (∃ d, s.reg[findPtrInfo s.reg hd.addr]? = some d) ∧
      s1.reg = sweepSpec (updFirst hd.addr decrRec s.reg) ∧
      s1.handles = s.handles.eraseIdx i := by
  cases hi : s.handles[i]? with
  | none => simp [step, hi] at h
  | some hd =>
    cases hf : s.reg[findPtrInfo s.reg hd.addr]? with
    | none =>
      have := dtor_miss s.reg hd ((findPtrInfo_none _ _).1 hf)
      simp [step, hi, this] at h
    | some d =>
      obtain ⟨hmem, _⟩ := findPtrInfo_some _ _ _ hf
      have := dtor_hit_pos s.reg hd d hf (hpos d hmem)
      simp only [step, hi, this, Except.ok.injEq] at h
      subst h
      exact ⟨hd, rfl, ⟨d, hf⟩, rfl, rfl⟩

/-! Section: Invariants of the registry -/

theorem uincr_of_lt (x : Nat) (h : x + 1 < UINT_MOD) : uincr x = x + 1 :=
  Nat.mod_eq_of_lt h

theorem counted_pos (reg : List PtrDetails) (k : Nat) (h : Counted reg k) :
    ∀ r ∈ reg, r.refcount ≠ 0 := fun r hr => by
  have := (h r hr).1
  omega

theorem distinct_updFirst (t : Addr) (f : PtrDetails → PtrDetails)
    (hf : ∀ e, (f e).memPtr = e.memPtr) (reg : List PtrDetails) (h : Distinct reg) :
    Distinct (updFirst t f reg) := by
  unfold Distinct
  rw [updFirst_addrs t f hf]
  exact h

theorem counted_updFirst_incr (t : Addr) (f : PtrDetails → PtrDetails)
    (hf : ∀ e, (f e).refcount = uincr e.refcount) (reg : List PtrDetails) (k : Nat)
    (h : Counted reg (k + 1)) : Counted (updFirst t f reg) k := by
  intro r hr
  rcases mem_updFirst t f reg r hr with h1 | ⟨d, hd, _, rfl⟩
  · have := h r h1
    omega
  · have := h d hd
    rw [hf, uincr_of_lt _ (by omega)]
    omega

theorem distinct_sweepSpec (reg : List PtrDetails) (h : Distinct reg) :
    Distinct (sweepSpec reg) :=
  List.Nodup.sublist ((sweepSpec_sublist reg).map _) h

theorem counted_sweep_decr (t : Addr) (reg : List PtrDetails) (k : Nat)
    (h : Counted reg (k + 1)) : Counted (sweepSpec (updFirst t decrRec reg)) k := by
  intro r hr
  have hpos := sweepSpec_pos _ r hr
  have hmem := (sweepSpec_sublist _).subset hr
  rcases mem_updFirst t decrRec reg r hmem with h1 | ⟨d, hd, _, rfl⟩
  · have := h r h1
    omega
  · have := h d hd
    simp only [decrRec] at hpos ⊢
    omega

/-- A step that succeeds keeps the addresses distinct and the counts positive. -/
theorem step_registry (s s1 : State) (op : Op) (k : Nat) (hnd : Distinct s.reg)
    (hc : Counted s.reg (k + 1)) (h : step s op = Except.ok s1) :
    Distinct s1.reg ∧ Counted s1.reg k := by
  have hpos := counted_pos _ _ hc
  cases op with
  | construct t =>
    obtain ⟨_, rfl⟩ := step_construct_ok s s1 t hpos h
    exact ⟨distinct_updFirst t incrRec (fun _ => rfl) _ hnd,
      counted_updFirst_incr t incrRec (fun _ => rfl) _ k hc⟩
  | copy i =>
    obtain ⟨ob, _, _, rfl⟩ := step_copy_ok s s1 i h
    exact ⟨distinct_updFirst ob.addr (copyRec ob) (fun _ => rfl) _ hnd,
      counted_updFirst_incr ob.addr (copyRec ob) (fun _ => rfl) _ k hc⟩
  | destroy i =>
    obtain ⟨hd, _, _, hreg, _⟩ := step_destroy_ok s s1 i hpos h
    rw [hreg]
    exact ⟨distinct_sweepSpec _ (distinct_updFirst hd.addr decrRec (fun _ => rfl) _ hnd),
      counted_sweep_decr _ _ k hc⟩

theorem counted_mono (reg : List PtrDetails) (k j : Nat) (hjk : j ≤ k) (h : Counted reg k) :
    Counted reg j := fun r hr => by
  have := h r hr
  omega

/-- A run that succeeds keeps the addresses distinct and the counts positive. -/
theorem run_registry (ops : List Op) (s s1 : State) (hnd : Distinct s.reg)
    (hc : Counted s.reg ops.length) (h : run ops s = Except.ok s1) :
    Distinct s1.reg ∧ Counted s1.reg 0 := by
  induction ops generalizing s with
  | nil =>
    simp only [run, Except.ok.injEq] at h
    subst h
    exact ⟨hnd, hc⟩
  | cons op ops ih =>
    simp only [run] at h
    cases hs : step s op with
    | error e => simp [hs] at h
    | ok s2 =>
      simp only [hs] at h
      obtain ⟨h1, h2⟩ := step_registry s s2 op ops.length hnd hc hs
      exact ih s2 h1 h2 h

/-! Section: Handles and counts -/

theorem handleCount_append (hs : List Pointer) (h : Pointer) (a : Addr) :
    handleCount (hs ++ [h]) a = handleCount hs a + (if h.addr = a then 1 else 0) := by
  simp [handleCount, List.countP_cons]

theorem handleCount_eraseIdx (hs : List Pointer) (i : Nat) (h : Pointer) (a : Addr)
    (hi : hs[i]? = some h) :
    handleCount (hs.eraseIdx i) a + (if h.addr = a then 1 else 0) = handleCount hs a := by
  induction hs generalizing i with
  | nil => simp at hi
  | cons x xs ih =>
    cases i with
    | zero =>
      simp only [List.getElem?_cons_zero, Option.some.injEq] at hi
      subst hi
      simp [handleCount, List.countP_cons]
    | succ j =>
      simp only [List.getElem?_cons_succ] at hi
      have := ih j hi
      simp only [handleCount, List.eraseIdx_cons_succ, List.countP_cons, decide_eq_true_eq] at this ⊢
      omega

theorem handleCount_pos (hs : List Pointer) (h : Pointer) (hh : h ∈ hs) :
    0 < handleCount hs h.addr := by
  unfold handleCount
  exact List.countP_pos_iff.2 ⟨h, hh, by simp⟩

theorem exists_mem_updFirst (t : Addr) (f : PtrDetails → PtrDetails)
    (hf : ∀ e, (f e).memPtr = e.memPtr) (reg : List PtrDetails) (a : Addr)
    (h : ∃ r ∈ reg, r.memPtr = a) : ∃ r ∈ updFirst t f reg, r.memPtr = a := by
  have h1 : a ∈ reg.map PtrDetails.memPtr := List.mem_map.2 h
  rw [← updFirst_addrs t f hf] at h1
  exact List.mem_map.1 h1

/-- Adding a handle on `t` while the record of `t` is incremented keeps handles and
counts linked. -/
theorem linked_add (s : State) (t : Addr) (f : PtrDetails → PtrDetails) (new : Pointer)
    (k : Nat) (hfm : ∀ e, (f e).memPtr = e.memPtr) (hfr : ∀ e, (f e).refcount = uincr e.refcount)
    (hnew : new.addr = t) (hex : ∃ d ∈ s.reg, d.memPtr = t) (hnd : Distinct s.reg)
    (hc : Counted s.reg (k + 1)) (hl : Linked s) :
    Linked { s with reg := updFirst t f s.reg, handles := s.handles ++ [new] } := by
  obtain ⟨hl1, hl2⟩ := hl
  constructor
  · intro h hh
    apply exists_mem_updFirst t f hfm
    rcases List.mem_append.1 hh with h1 | h1
    · exact hl1 h h1
    · simp only [List.mem_singleton] at h1
      subst h1
      rw [hnew]; exact hex
  · intro r hr
    simp only at hr ⊢
    rw [handleCount_append]
    rcases mem_updFirst_nodup t f s.reg hnd r hr with ⟨h1, h2⟩ | ⟨d, hd, hdt, rfl⟩
    · rw [hl2 r h1, hnew, if_neg (fun e => h2 e.symm)]
      rfl
    · have hb := hc d hd
      rw [hfr, hfm, uincr_of_lt _ (by omega), hl2 d hd, hnew, hdt, if_pos rfl]

/-- Removing a handle, decrementing its record and sweeping keeps handles and counts
linked. -/
theorem linked_destroy (s : State) (i : Nat) (hd : Pointer) (k : Nat)
    (hi : s.handles[i]? = some hd) (d0 : PtrDetails)
    (hf : s.reg[findPtrInfo s.reg hd.addr]? = some d0) (hnd : Distinct s.reg)
    (hc : Counted s.reg (k + 1)) (hl : Linked s) :
    Linked { reg := sweepSpec (updFirst hd.addr decrRec s.reg),
             handles := s.handles.eraseIdx i, log := s.log } := by
  obtain ⟨hl1, hl2⟩ := hl
  have hcnt := fun a => handleCount_eraseIdx s.handles i hd a hi
  have hzero : ∀ z ∈ updFirst hd.addr decrRec s.reg, z.refcount = 0 → z.memPtr = hd.addr ∧
      handleCount (s.handles.eraseIdx i) hd.addr = 0 := by
    intro z hz hz0
    rcases mem_updFirst_nodup hd.addr decrRec s.reg hnd z hz with ⟨h1, _⟩ | ⟨d, hdm, hdt, rfl⟩
    · have := (hc z h1).1
      omega
    · refine ⟨hdt, ?_⟩
      have h3 := hl2 d hdm
      have h4 := hcnt hd.addr
      simp only [decrRec] at hz0
      rw [hdt] at h3
      simp only [if_true] at h4
      omega
  constructor
  · intro h hh
    simp only at hh ⊢
    have hmem := List.mem_of_mem_eraseIdx hh
    have hposc := handleCount_pos _ h hh
    by_cases hne : h.addr = hd.addr
    · have hd0 := mem_updFirst_hit hd.addr decrRec s.reg d0 hf
      obtain ⟨_, hd0t⟩ := findPtrInfo_some _ _ _ hf
      refine ⟨decrRec d0, (mem_sweepSpec _ _).2 ⟨hd0, ?_⟩, by simp only [decrRec]; rw [hd0t, hne]⟩
      intro z hz hz0 _
      have := (hzero z hz hz0).2
      rw [hne] at hposc
      omega
    · obtain ⟨r, hr, hra⟩ := hl1 h hmem
      have hr1 := mem_updFirst_of_ne hd.addr decrRec s.reg r hr (by rw [hra]; exact hne)
      refine ⟨r, (mem_sweepSpec _ _).2 ⟨hr1, ?_⟩, hra⟩
      intro z hz hz0 hzr
      have := (hzero z hz hz0).1
      rw [hzr, hra] at this
      exact hne this
  · intro r hr
    simp only at hr ⊢
    have hmem := (sweepSpec_sublist _).subset hr
    have h4 := hcnt r.memPtr
    rcases mem_updFirst_nodup hd.addr decrRec s.reg hnd r hmem with ⟨h1, h2⟩ | ⟨d, hdm, hdt, rfl⟩
    · rw [if_neg (fun e => h2 e.symm)] at h4
      rw [hl2 r h1]
      omega
    · have h3 := hl2 d hdm
      simp only [decrRec] at h4 ⊢
      rw [if_pos hdt.symm] at h4
      omega

/-- A step that succeeds keeps handles and counts linked. -/
theorem step_linked (s s1 : State) (op : Op) (k : Nat) (hnd : Distinct s.reg)
    (hc : Counted s.reg (k + 1)) (hl : Linked s) (h : step s op = Except.ok s1) :
    Linked s1 := by
  have hpos := counted_pos _ _ hc
  cases op with
  | construct t =>
    obtain ⟨hex, rfl⟩ := step_construct_ok s s1 t hpos h
    exact linked_add s t incrRec _ k (fun _ => rfl) (fun _ => rfl) rfl hex hnd hc hl
  | copy i =>
    obtain ⟨ob, _, hex, rfl⟩ := step_copy_ok s s1 i h
    exact linked_add s ob.addr (copyRec ob) (copyOf ob) k (fun _ => rfl) (fun _ => rfl) rfl
      hex hnd hc hl
  | destroy i =>
    obtain ⟨hd, hi, ⟨d0, hf⟩, hreg, hhs⟩ := step_destroy_ok s s1 i hpos h
    have := linked_destroy s i hd k hi d0 hf hnd hc hl
    unfold Linked at this ⊢
    rw [hreg, hhs]
    exact this

/-- A run that succeeds keeps handles and counts linked. -/
theorem run_linked (ops : List Op) (s s1 : State) (hnd : Distinct s.reg)
    (hc : Counted s.reg ops.length) (hl : Linked s) (h : run ops s = Except.ok s1) :
    Linked s1 := by
  induction ops generalizing s with
  | nil =>
    simp only [run, Except.ok.injEq] at h
    subst h
    exact hl
  | cons op ops ih =>
    simp only [run] at h
    cases hs : step s op with
    | error e => simp [hs] at h
    | ok s2 =>
      simp only [hs] at h
      obtain ⟨h1, h2⟩ := step_registry s s2 op ops.length hnd hc hs
      exact ih s2 h1 h2 (step_linked s s2 op ops.length hnd hc hl hs) h

theorem findPtrInfo_updFirst (t : Addr) (f : PtrDetails → PtrDetails)
    (hf : ∀ e, (f e).memPtr = e.memPtr) (reg : List PtrDetails) (a : Addr) :
    findPtrInfo (updFirst t f reg) a = findPtrInfo reg a := by
  induction reg with
  | nil => rfl
  | cons e es ih =>
    by_cases he : e.memPtr = t
    · simp [updFirst, he, findPtrInfo, hf]
    · simp [updFirst, he, findPtrInfo, ih]

/-! Section: The deallocations of a sweep -/

theorem collectLoop_log (n : Nat) (st : CollectState) :
    (collectLoop n st).log = st.log ++ (collectFound n st.reg).flatMap deallocOf := by
  induction n generalizing st with
  | zero => simp [collectLoop, collectFound]
  | succ n ih =>
    unfold collectLoop collectFound
    cases hs : scanZero st.reg with
    | none => simp
    | some d => simp only; rw [ih]; simp

theorem listRemove_cons (v e : PtrDetails) (es : List PtrDetails) :
    listRemove v (e :: es)
      = if e.memPtr = v.memPtr then listRemove v es else e :: listRemove v es := by
  by_cases h : e.memPtr = v.memPtr <;> simp [listRemove, PtrDetails.opEq, List.filter_cons, h]

theorem listRemove_comm (v w : PtrDetails) (reg : List PtrDetails) :
    listRemove v (listRemove w reg) = listRemove w (listRemove v reg) := by
  simp only [listRemove, List.filter_filter]
  apply List.filter_congr
  intro x _
  exact Bool.and_comm _ _

theorem listRemove_idem (v w : PtrDetails) (reg : List PtrDetails)
    (h : w.memPtr = v.memPtr) : listRemove v (listRemove w reg) = listRemove v reg := by
  simp only [listRemove, List.filter_filter]
  apply List.filter_congr
  intro x _
  simp [PtrDetails.opEq, h]

/-- Removal by address commutes with `zerosFirst`. -/
theorem zerosFirst_listRemove (v : PtrDetails) (reg : List PtrDetails) :
    zerosFirst (listRemove v reg) = listRemove v (zerosFirst reg) := by
  induction reg with
  | nil => rfl
  | cons e es ih =>
    have hz : ∀ X : List PtrDetails,
        List.filter (fun x => !(PtrDetails.opEq x e)) X = listRemove e X := fun _ => rfl
    rw [listRemove_cons]
    by_cases hev : e.memPtr = v.memPtr
    · rw [if_pos hev, ih]
      by_cases he : e.refcount = 0
      · simp only [zerosFirst, he, if_true]
        rw [hz, listRemove_cons, if_pos hev, listRemove_idem v e _ hev]
      · simp only [zerosFirst, he, if_false]
    · rw [if_neg hev]
      by_cases he : e.refcount = 0
      · simp only [zerosFirst, he, if_true]
        rw [hz, hz, listRemove_cons, if_neg hev, ih, listRemove_comm]
      · simp only [zerosFirst, he, if_false]
        exact ih

theorem zerosFirst_of_no_zero (reg : List PtrDetails) (h : scanZero reg = none) :
    zerosFirst reg = [] := by
  induction reg with
  | nil => rfl
  | cons e es ih =>
    by_cases he : e.refcount > 0
    · simp only [scanZero, he, if_true] at h
      have : e.refcount ≠ 0 := by omega
      simp only [zerosFirst, this, if_false]
      exact ih h
    · simp [scanZero, he] at h

theorem zerosFirst_of_scanZero (reg : List PtrDetails) (d : PtrDetails)
    (h : scanZero reg = some d) : zerosFirst reg = d :: listRemove d (zerosFirst reg) := by
  induction reg with
  | nil => simp [scanZero] at h
  | cons e es ih =>
    have hz : ∀ X : List PtrDetails,
        List.filter (fun x => !(PtrDetails.opEq x e)) X = listRemove e X := fun _ => rfl
    by_cases he : e.refcount > 0
    · simp only [scanZero, he, if_true] at h
      have : e.refcount ≠ 0 := by omega
      simp only [zerosFirst, this, if_false]
      exact ih h
    · simp only [scanZero, he, if_false, Option.some.injEq] at h
      subst h
      have : e.refcount = 0 := by omega
      simp only [zerosFirst, this, if_true]
      rw [hz, listRemove_cons, if_pos rfl, listRemove_idem e e _ rfl]

/-- With more scans allowed than there are records, the scans stop at `zerosFirst`. -/
theorem collectFound_eq (n : Nat) (reg : List PtrDetails) (h : reg.length < n) :
    collectFound n reg = zerosFirst reg := by
  induction n generalizing reg with
  | zero => omega
  | succ n ih =>
    unfold collectFound
    cases hs : scanZero reg with
    | none => exact (zerosFirst_of_no_zero reg hs).symm
    | some d =>
      simp only
      obtain ⟨hd, _⟩ := scanZero_some _ _ hs
      have hlt := listRemove_length_lt d reg hd
      rw [ih _ (by omega), zerosFirst_listRemove, ← zerosFirst_of_scanZero reg d hs]

theorem collect_log (reg : List PtrDetails) :
    (collect reg).log = (zerosFirst reg).flatMap deallocOf := by
  unfold collect
  rw [collectLoop_log, collectFound_eq _ _ (by simp)]
  simp

theorem collectScans_le (n : Nat) (reg : List PtrDetails) :
    collectScans n reg ≤ reg.length + 1 := by
  induction n generalizing reg with
  | zero => simp [collectScans]
  | succ n ih =>
    unfold collectScans
    cases hs : scanZero reg with
    | none => simp
    | some d =>
      simp only
      obtain ⟨hd, _⟩ := scanZero_some _ _ hs
      have hlt := listRemove_length_lt d reg hd
      have := ih (listRemove d reg)
      omega

theorem collectScans_eq (n : Nat) (reg : List PtrDetails) (h : reg.length < n) :
    collectScans n reg = (collectFound n reg).length + 1 := by
  induction n generalizing reg with
  | zero => omega
  | succ n ih =>
    unfold collectScans collectFound
    cases hs : scanZero reg with
    | none => simp
    | some d =>
      simp only
      obtain ⟨hd, _⟩ := scanZero_some _ _ hs
      have hlt := listRemove_length_lt d reg hd
      rw [ih _ (by omega)]
      simp

theorem mem_zerosFirst (reg : List PtrDetails) (f : PtrDetails) (h : f ∈ zerosFirst reg) :
    f ∈ reg ∧ f.refcount = 0 := by
  induction reg with
  | nil => simp [zerosFirst] at h
  | cons e es ih =>
    by_cases he : e.refcount = 0
    · simp only [zerosFirst, he, if_true, List.mem_cons, List.mem_filter] at h
      rcases h with h | ⟨h, _⟩
      · subst h; exact ⟨by simp, he⟩
      · exact ⟨by simp [(ih h).1], (ih h).2⟩
    · simp only [zerosFirst, he, if_false] at h
      exact ⟨by simp [(ih h).1], (ih h).2⟩

/-- Every address of a record with count 0 is the address of a record of `zerosFirst`. -/
theorem zerosFirst_complete (reg : List PtrDetails) (z : PtrDetails) (hz : z ∈ reg)
    (hz0 : z.refcount = 0) : ∃ f ∈ zerosFirst reg, f.memPtr = z.memPtr := by
  induction reg with
  | nil => simp at hz
  | cons e es ih =>
    by_cases he : e.refcount = 0
    · simp only [zerosFirst, he, if_true]
      by_cases hze : z.memPtr = e.memPtr
      · exact ⟨e, by simp, hze.symm⟩
      · rcases List.mem_cons.1 hz with h | h
        · subst h; exact absurd rfl hze
        · obtain ⟨f, hf, hfz⟩ := ih h
          refine ⟨f, ?_, hfz⟩
          simp only [List.mem_cons, List.mem_filter]
          refine Or.inr ⟨hf, ?_⟩
          simp only [PtrDetails.opEq, Bool.not_eq_true', beq_eq_false_iff_ne, ne_eq]
          rw [hfz]; exact hze
    · simp only [zerosFirst, he, if_false]
      rcases List.mem_cons.1 hz with h | h
      · subst h; exact absurd hz0 he
      · exact ih h

/-- No address occurs twice in `zerosFirst`. -/
theorem zerosFirst_nodup (reg : List PtrDetails) :
    ((zerosFirst reg).map PtrDetails.memPtr).Nodup := by
  induction reg with
  | nil => simp [zerosFirst]
  | cons e es ih =>
    by_cases he : e.refcount = 0
    · simp only [zerosFirst, he, if_true, List.map_cons, List.nodup_cons, List.mem_map,
        List.mem_filter, not_exists, not_and]
      constructor
      · rintro x ⟨_, hx⟩ hxe
        simp [PtrDetails.opEq, hxe] at hx
      · exact List.Nodup.sublist ((List.filter_sublist _).map _) ih
    · simp only [zerosFirst, he, if_false]
      exact ih

/-- A record of `zerosFirst` is the first record of the registry with count 0 and its
address. -/
theorem zerosFirst_first (reg : List PtrDetails) (f : PtrDetails) (h : f ∈ zerosFirst reg) :
    reg.find? (fun x => decide (x.refcount = 0) && decide (x.memPtr = f.memPtr)) = some f := by
  induction reg with
  | nil => simp [zerosFirst] at h
  | cons e es ih =>
    by_cases he : e.refcount = 0
    · simp only [zerosFirst, he, if_true, List.mem_cons, List.mem_filter] at h
      rcases h with h | ⟨h, hne⟩
      · subst h
        simp [List.find?_cons, he]
      · have hne2 : ¬ e.memPtr = f.memPtr := by
          simp only [PtrDetails.opEq, Bool.not_eq_true', beq_eq_false_iff_ne, ne_eq] at hne
          exact fun h => hne h.symm
        simp only [List.find?_cons, he, hne2, decide_True, decide_False, Bool.and_false]
        exact ih h
    · simp only [zerosFirst, he, if_false] at h
      simp only [List.find?_cons, he, decide_False, Bool.false_and]
      exact ih h

/-- Each non-null address of `fs` is deallocated once by `fs.flatMap deallocOf`, when no
address occurs twice in `fs`; no other address is deallocated. -/
theorem countP_flatMap_deallocOf (fs : List PtrDetails) (a : Addr)
    (hnd : (fs.map PtrDetails.memPtr).Nodup) :
    (fs.flatMap deallocOf).countP (fun e => decide (e.addr = a))
      = if a ≠ 0 ∧ a ∈ fs.map PtrDetails.memPtr then 1 else 0 := by
  induction fs with
  | nil => simp
  | cons f fs ih =>
    simp only [List.map_cons, List.nodup_cons] at hnd
    rw [List.flatMap_cons, List.countP_append, ih hnd.2]
    by_cases hfa : f.memPtr = a
    · have hnot : a ∉ fs.map PtrDetails.memPtr := hfa ▸ hnd.1
      by_cases ha : a = 0
      · simp [deallocOf, hfa, ha]
      · simp [deallocOf, hfa, ha, hnot]
    · have hne : ¬ a = f.memPtr := fun h => hfa h.symm
      by_cases hf0 : f.memPtr = 0
      · have ha : ¬ a = 0 := hf0 ▸ hne
        simp [deallocOf, hf0, ha]
      · simp [deallocOf, hf0, List.mem_cons, hne, hfa]

theorem mem_collect_log (reg : List PtrDetails) (e : Dealloc) (h : e ∈ (collect reg).log) :
    ∃ f ∈ zerosFirst reg, f.memPtr ≠ 0 ∧ e = { addr := f.memPtr, array := f.isArray } := by
  rw [collect_log, List.mem_flatMap] at h
  obtain ⟨f, hf, he⟩ := h
  by_cases hf0 : f.memPtr = 0
  · simp [deallocOf, hf0] at he
  · simp only [deallocOf, ne_eq, hf0, not_false_eq_true, if_true, List.mem_singleton] at he
    exact ⟨f, hf, hf0, he⟩

/-- With pairwise distinct addresses the sweep keeps exactly the records with a positive
count. -/
theorem sweepSpec_distinct (reg : List PtrDetails) (h : Distinct reg) :
    sweepSpec reg = reg.filter (fun d => decide (d.refcount > 0)) := by
  unfold sweepSpec
  apply List.filter_congr
  intro d hd
  by_cases hd0 : d.refcount = 0
  · have : zeroAddr reg d.memPtr = true := (zeroAddr_iff _ _).2 ⟨d, hd, hd0, rfl⟩
    simp [this, hd0]
  · have : ¬ zeroAddr reg d.memPtr = true := by
      rw [zeroAddr_iff]
      rintro ⟨z, hz, hz0, hza⟩
      have hzd : z = d := List.inj_on_of_nodup_map h hz hd hza
      exact hd0 (hzd ▸ hz0)
    have hpos : d.refcount > 0 := by omega
    simp [this, hpos]

/-- With pairwise distinct addresses the scans stop at every record with count 0, in
registry order. -/
theorem zerosFirst_distinct (reg : List PtrDetails) (h : Distinct reg) :
    zerosFirst reg = reg.filter (fun d => decide (d.refcount = 0)) := by
  induction reg with
  | nil => rfl
  | cons e es ih =>
    unfold Distinct at h ih
    simp only [List.map_cons, List.nodup_cons, List.mem_map, not_exists, not_and] at h
    by_cases he : e.refcount = 0
    · simp only [zerosFirst, he, if_true, List.filter_cons, decide_True]
      rw [ih h.2]
      congr 1
      apply List.filter_eq_self.2
      intro x hx
      have hxe : ¬ x.memPtr = e.memPtr := h.1 x (List.mem_filter.1 hx).1
      simp [PtrDetails.opEq, hxe]
    · simp only [zerosFirst, he, if_false, List.filter_cons, decide_False]
      exact ih h.2

theorem singlePass_reg (reg : List PtrDetails) :
    (singlePass reg).reg = reg.filter (fun d => decide (d.refcount > 0)) := by
  induction reg with
  | nil => rfl
  | cons e es ih =>
    by_cases he : e.refcount > 0 <;> simp [singlePass, he, List.filter_cons, ih]

theorem singlePass_log (reg : List PtrDetails) :
    (singlePass reg).log = (reg.filter (fun d => decide (d.refcount = 0))).flatMap deallocOf := by
  induction reg with
  | nil => rfl
  | cons e es ih =>
    by_cases he : e.refcount > 0
    · have : e.refcount ≠ 0 := by omega
      simp [singlePass, he, List.filter_cons, ih, this]
    · have : e.refcount = 0 := by omega
      simp [singlePass, List.filter_cons, ih, this]

theorem singlePass_freed (reg : List PtrDetails) :
    (singlePass reg).freed = true ↔ ∃ d ∈ reg, d.refcount = 0 := by
  induction reg with
  | nil => simp [singlePass]
  | cons e es ih =>
    by_cases he : e.refcount > 0
    · have : e.refcount ≠ 0 := by omega
      simp [singlePass, he, ih, this]
    · have : e.refcount = 0 := by omega
      simp [singlePass, this]

theorem CollectState.eq_of (a b : CollectState) (h1 : a.freed = b.freed) (h2 : a.reg = b.reg)
    (h3 : a.log = b.log) : a = b := by
  cases a; cases b; simp_all

/-! Section: The claims -/

/-- C1 (fails on the code): a run from the empty registry that ends with every handle
destroyed should leave the registry empty with each wrapped allocation deallocated once.
Every run from the empty registry that begins by constructing a handle, whatever the address
and whatever follows, stops in `Pointer(T*)` at the read of `refcount` through `end()`. -/
theorem C1_first_construction_faults (t : Addr) (ops : List Op) :
    run (Op.construct t :: ops) State.init = Except.error Fault.endDeref := by
  have h : step State.init (Op.construct t) = Except.error Fault.endDeref := by
    simp [step, State.init, ctor_miss]
  simp [run, h]

/-- C2 (fails on the code): every live handle should have a record whose count is the
number of live handles on its address. From the empty registry no run reaches a state with a
live handle: a run that starts with a construction stops in `Pointer(T*)` at the read of
`refcount` through `end()`, and a copy or a destroy has no live handle to start from. On the
one path where the constructor inserts with a defined result, a record of count 0 for the
same address, the record that the lookup finds for the new handle has count 0 while one
handle is live. -/
theorem C2_no_handle_gets_a_record_from_empty (op : Op) (ops : List Op) :
    run (op :: ops) State.init
      = Except.error (match op with
          | Op.construct _ => Fault.endDeref
          | Op.copy _ => Fault.noHandle
          | Op.destroy _ => Fault.noHandle) ∧
    run [Op.construct 5, Op.construct 7] State.init = Except.error Fault.endDeref ∧
    run [Op.construct 5] { reg := [⟨0, 5, false, 0⟩], handles := [], log := [] }
      = Except.ok { reg := [⟨0, 5, false, 0⟩, ⟨1, 5, false, 0⟩],
                    handles := [⟨5, false, 0⟩], log := [] } ∧
    [(⟨0, 5, false, 0⟩ : PtrDetails), ⟨1, 5, false, 0⟩][findPtrInfo
        [⟨0, 5, false, 0⟩, ⟨1, 5, false, 0⟩] (5 : Addr)]? = some ⟨0, 5, false, 0⟩ ∧
    handleCount [⟨5, false, 0⟩] 5 = 1 := by
  refine ⟨?_, by decide, by decide, by decide, by decide⟩
  cases op with
  | construct t =>
    have h : step State.init (Op.construct t) = Except.error Fault.endDeref := by
      simp [step, State.init, ctor_miss]
    simp [run, h]
  | copy i => simp [run, step, State.init]
  | destroy i => simp [run, step, State.init]

/-- C3 (fails on the code): no two records should have the same address, which rests on
inserting a record only when the lookup finds none. The constructor inserts when the count
it reads through the iterator is 0: on a lookup miss, the first construction of every run
from the empty registry, that read goes through `end()` and has no defined result; on a
record of count 0 for the same address it appends a second record for that address. A count
of 4294967295 wraps to 0 at one construction, and the next construction then appends the
second record. -/
theorem C3_insertion_is_decided_by_the_count (t : Addr) :
    step State.init (Op.construct t) = Except.error Fault.endDeref ∧
    step { reg := [⟨0, t, false, 0⟩], handles := [], log := [] } (Op.construct t)
      = Except.ok { reg := [⟨0, t, false, 0⟩, ⟨1, t, false, 0⟩],
                    handles := [⟨t, false, 0⟩], log := [] } ∧
    ¬ ([(⟨0, t, false, 0⟩ : PtrDetails), ⟨1, t, false, 0⟩].map PtrDetails.memPtr).Nodup ∧
    run [Op.construct 5, Op.construct 5]
        { reg := [⟨4294967295, 5, false, 0⟩], handles := [], log := [] }
      = Except.ok { reg := [⟨0, 5, false, 0⟩, ⟨1, 5, false, 0⟩],
                    handles := [⟨5, false, 0⟩, ⟨5, false, 0⟩], log := [] } := by
  refine ⟨?_, ?_, by simp, by decide⟩
  · simp [step, State.init, ctor_miss]
  · simp [step, Pointer.ctor, findPtrInfo, PtrDetails.ctor]

/-- C4 (fails on the code): with no record for `p`, two handles on `p` should share one
record of count 2, and destroying both should deallocate `p` once. Both scenarios (second
handle by construction, second handle by copy) stop at their first construction, from the
empty registry and from a registry that holds a record for another address. -/
theorem C4_two_handle_scenarios_fault (p : Addr) :
    run [Op.construct p, Op.construct p, Op.destroy 0, Op.destroy 0] State.init
      = Except.error Fault.endDeref ∧
    run [Op.construct p, Op.copy 0, Op.destroy 0, Op.destroy 0] State.init
      = Except.error Fault.endDeref ∧
    run [Op.construct p, Op.construct p, Op.destroy 1, Op.destroy 1]
        { reg := [⟨1, p + 1, false, 0⟩], handles := [⟨p + 1, false, 0⟩], log := [] }
      = Except.error Fault.endDeref ∧
    run [Op.construct p, Op.copy 1, Op.destroy 1, Op.destroy 1]
        { reg := [⟨1, p + 1, false, 0⟩], handles := [⟨p + 1, false, 0⟩], log := [] }
      = Except.error Fault.endDeref := by
  have h1 : step State.init (Op.construct p) = Except.error Fault.endDeref := by
    simp [step, State.init, ctor_miss]
  have h2 : step { reg := [⟨1, p + 1, false, 0⟩], handles := [⟨p + 1, false, 0⟩], log := [] }
      (Op.construct p) = Except.error Fault.endDeref := by
    simp [step, ctor_miss]
  simp [run, h1, h2]

/-- C5 (fails on the code): constructing from `t` should append a record of count 1 when
`t` has no record and increment the record of `t` otherwise. With no record for `t` (empty
registry, or only a record for another address) the constructor stops at the read through
`end()`; with a record for `t` of count 0 it appends a second record for `t` and increments
nothing. -/
theorem C5_ctor_on_miss_and_on_zero_count (t : Addr) :
    Pointer.ctor [] t = Except.error Fault.endDeref ∧
    Pointer.ctor [⟨1, t + 1, false, 0⟩] t = Except.error Fault.endDeref ∧
    Pointer.ctor [⟨0, t, false, 0⟩] t
      = Except.ok ([⟨0, t, false, 0⟩, ⟨1, t, false, 0⟩], ⟨t, false, 0⟩) := by
  refine ⟨ctor_miss _ _ (by simp), ctor_miss _ _ (by simp), ?_⟩
  simp [Pointer.ctor, findPtrInfo, PtrDetails.ctor]

/-- C6 as written fails: on a record of count 4294967295 the copy constructor leaves the
count 0, not 4294967296. -/
theorem C6_counterexample :
    Pointer.copyCtor [⟨4294967295, 5, false, 0⟩] ⟨5, false, 0⟩
      = Except.ok ([⟨0, 5, false, 0⟩], ⟨5, false, 0⟩) ∧
    (0 : Nat) ≠ 4294967295 + 1 := by
  decide

/-- C6 (amended): when the address of `ob` has a record, copy-constructing from `ob`
succeeds; the first record for that address gets its count incremented modulo `UINT_MOD`,
which is an increment by exactly one whenever the count is below `UINT_MOD - 1`; the registry
keeps its length and its addresses; every record at another position is unchanged; the new
handle has the address of `ob`. -/
theorem C6_copy_increments_one_record (reg : List PtrDetails) (ob : Pointer)
    (hrec : ∃ r ∈ reg, r.memPtr = ob.addr) :
    ∃ reg1 h d d1, Pointer.copyCtor reg ob = Except.ok (reg1, h) ∧
      reg[findPtrInfo reg ob.addr]? = some d ∧ d.memPtr = ob.addr ∧
      reg1[findPtrInfo reg ob.addr]? = some d1 ∧ d1.memPtr = ob.addr ∧
      d1.refcount = (d.refcount + 1) % UINT_MOD ∧
      (d.refcount + 1 < UINT_MOD → d1.refcount = d.refcount + 1) ∧
      reg1.length = reg.length ∧
      reg1.map PtrDetails.memPtr = reg.map PtrDetails.memPtr ∧
      (∀ j, j ≠ findPtrInfo reg ob.addr → reg1[j]? = reg[j]?) ∧
      h.addr = ob.addr := by
  obtain ⟨d, hd⟩ := findPtrInfo_hit reg ob.addr hrec
  obtain ⟨_, hdt⟩ := findPtrInfo_some _ _ _ hd
  have hlt : findPtrInfo reg ob.addr < reg.length := by
    by_contra hge
    rw [List.getElem?_eq_none (by omega)] at hd
    cases hd
  refine ⟨_, _, d, copyRec ob d, copyCtor_hit reg ob d hd, hd, hdt, ?_, hdt, rfl,
    fun h => uincr_of_lt _ h, updFirst_length _ _ _,
    updFirst_addrs ob.addr (copyRec ob) (fun _ => rfl) reg, ?_, rfl⟩
  · rw [← set_findPtrInfo reg ob.addr d (copyRec ob) hd]
    exact List.getElem?_set_self hlt
  · intro j hj
    rw [← set_findPtrInfo reg ob.addr d (copyRec ob) hd]
    exact List.getElem?_set_ne (Ne.symm hj)

/-- Witness of C6 (amended): a copy from a handle on the second of three records. -/
theorem C6_copy_increments_one_record_witness :
    (∃ r ∈ [(⟨1, 5, false, 0⟩ : PtrDetails), ⟨3, 7, false, 0⟩, ⟨2, 9, false, 0⟩],
      r.memPtr = 7) ∧
    ∃ reg1 h d d1,
      Pointer.copyCtor [⟨1, 5, false, 0⟩, ⟨3, 7, false, 0⟩, ⟨2, 9, false, 0⟩] ⟨7, false, 0⟩
        = Except.ok (reg1, h) ∧
      [(⟨1, 5, false, 0⟩ : PtrDetails), ⟨3, 7, false, 0⟩, ⟨2, 9, false, 0⟩][findPtrInfo
        [⟨1, 5, false, 0⟩, ⟨3, 7, false, 0⟩, ⟨2, 9, false, 0⟩] (7 : Addr)]? = some d ∧
      d.memPtr = 7 ∧
      reg1[findPtrInfo [⟨1, 5, false, 0⟩, ⟨3, 7, false, 0⟩, ⟨2, 9, false, 0⟩] (7 : Addr)]?
        = some d1 ∧
      d1.memPtr = 7 ∧
      d1.refcount = (d.refcount + 1) % UINT_MOD ∧
      (d.refcount + 1 < UINT_MOD → d1.refcount = d.refcount + 1) ∧
      reg1.length = [(⟨1, 5, false, 0⟩ : PtrDetails), ⟨3, 7, false, 0⟩, ⟨2, 9, false, 0⟩].length ∧
      reg1.map PtrDetails.memPtr
        = [(⟨1, 5, false, 0⟩ : PtrDetails), ⟨3, 7, false, 0⟩, ⟨2, 9, false, 0⟩].map
            PtrDetails.memPtr ∧
      (∀ j, j ≠ findPtrInfo [⟨1, 5, false, 0⟩, ⟨3, 7, false, 0⟩, ⟨2, 9, false, 0⟩] (7 : Addr) →
        reg1[j]? = [(⟨1, 5, false, 0⟩ : PtrDetails), ⟨3, 7, false, 0⟩, ⟨2, 9, false, 0⟩][j]?) ∧
      h.addr = 7 :=
  ⟨⟨⟨3, 7, false, 0⟩, by decide, rfl⟩,
   C6_copy_increments_one_record [⟨1, 5, false, 0⟩, ⟨3, 7, false, 0⟩, ⟨2, 9, false, 0⟩]
     ⟨7, false, 0⟩ ⟨⟨3, 7, false, 0⟩, by decide, rfl⟩⟩

/-- C7 as written fails: a source handle with `isArray = true` and `arraySize = 0` gives a
copy and a record with `isArray = false`. -/
theorem C7_counterexample :
    Pointer.copyCtor [⟨1, 5, true, 0⟩] ⟨5, true, 0⟩
      = Except.ok ([⟨2, 5, false, 0⟩], ⟨5, false, 0⟩) ∧
    (⟨5, false, 0⟩ : Pointer).isArray ≠ (⟨5, true, 0⟩ : Pointer).isArray ∧
    (⟨2, 5, false, 0⟩ : PtrDetails).isArray ≠ (⟨5, true, 0⟩ : Pointer).isArray := by
  decide

/-- C7 (amended): when the address of `ob` has a record, copy-constructing from `ob`
succeeds, and both the new handle and the record then found for that address have
`arraySize = ob.arraySize` and `isArray = (ob.arraySize > 0)`; these are the `isArray` of
`ob` when `ob.isArray` agrees with `ob.arraySize > 0`. -/
theorem C7_copy_sets_array_metadata (reg : List PtrDetails) (ob : Pointer)
    (hrec : ∃ r ∈ reg, r.memPtr = ob.addr) :
    ∃ reg1 h d1, Pointer.copyCtor reg ob = Except.ok (reg1, h) ∧
      reg1[findPtrInfo reg1 ob.addr]? = some d1 ∧ d1.memPtr = ob.addr ∧
      h.arraySize = ob.arraySize ∧ d1.arraySize = ob.arraySize ∧
      h.isArray = decide (ob.arraySize > 0) ∧ d1.isArray = decide (ob.arraySize > 0) ∧
      (ob.isArray = decide (ob.arraySize > 0) →
        h.isArray = ob.isArray ∧ d1.isArray = ob.isArray) := by
  obtain ⟨d, hd⟩ := findPtrInfo_hit reg ob.addr hrec
  obtain ⟨_, hdt⟩ := findPtrInfo_some _ _ _ hd
  have hlt : findPtrInfo reg ob.addr < reg.length := by
    by_contra hge
    rw [List.getElem?_eq_none (by omega)] at hd
    cases hd
  refine ⟨_, _, copyRec ob d, copyCtor_hit reg ob d hd, ?_, hdt, rfl, rfl, rfl, rfl,
    fun h => ⟨h.symm, h.symm⟩⟩
  rw [findPtrInfo_updFirst ob.addr (copyRec ob) (fun _ => rfl),
    ← set_findPtrInfo reg ob.addr d (copyRec ob) hd]
  exact List.getElem?_set_self hlt

/-- Witness of C7 (amended): a copy from a handle that caches `isArray = false` with
`arraySize = 4`, on the second of two records. -/
theorem C7_copy_sets_array_metadata_witness :
    (∃ r ∈ [(⟨1, 5, false, 0⟩ : PtrDetails), ⟨1, 7, false, 0⟩], r.memPtr = 7) ∧
    ∃ reg1 h d1,
      Pointer.copyCtor [⟨1, 5, false, 0⟩, ⟨1, 7, false, 0⟩] ⟨7, false, 4⟩
        = Except.ok (reg1, h) ∧
      reg1[findPtrInfo reg1 (7 : Addr)]? = some d1 ∧ d1.memPtr = 7 ∧
      h.arraySize = 4 ∧ d1.arraySize = 4 ∧
      h.isArray = decide (4 > 0) ∧ d1.isArray = decide (4 > 0) ∧
      (false = decide (4 > 0) → h.isArray = false ∧ d1.isArray = false) :=
  ⟨⟨⟨1, 7, false, 0⟩, by decide, rfl⟩,
   C7_copy_sets_array_metadata [⟨1, 5, false, 0⟩, ⟨1, 7, false, 0⟩] ⟨7, false, 4⟩
     ⟨⟨1, 7, false, 0⟩, by decide, rfl⟩⟩

/-- C8 (fails on the code): destroying a handle whose address has no record should change
no count and then sweep. On the empty registry, and on a registry that holds only a record
for another address, the destructor stops at the read of `refcount` through `end()`, before
the sweep. -/
theorem C8_dtor_on_miss_faults (self : Pointer) :
    Pointer.dtor [] self = Except.error Fault.endDeref ∧
    Pointer.dtor [⟨1, self.addr + 1, false, 0⟩] self = Except.error Fault.endDeref :=
  ⟨dtor_miss _ _ (by simp), dtor_miss _ _ (by simp)⟩

/-- C9: after `collect` no record with count 0 remains, and the registry left is a
subsequence of the original one: surviving records are unchanged and in their original
order. -/
theorem C9_collect_leaves_sublist_without_zero (reg : List PtrDetails) :
    (∀ d ∈ (collect reg).reg, d.refcount ≠ 0) ∧ List.Sublist (collect reg).reg reg := by
  rw [collect_reg]
  exact ⟨fun d hd => sweepSpec_pos reg d hd, sweepSpec_sublist reg⟩

/-- C10: `collect` returns true exactly when the registry it was called on holds a record
with count 0, which is exactly when it removed at least one record; a call that deallocated
something returns true. -/
theorem C10_collect_returns_whether_freed (reg : List PtrDetails) :
    ((collect reg).freed = true ↔ ∃ d ∈ reg, d.refcount = 0) ∧
    ((collect reg).freed = true ↔ (collect reg).reg.length < reg.length) ∧
    ((collect reg).log ≠ [] → (collect reg).freed = true) := by
  refine ⟨collect_freed reg, ?_, ?_⟩
  · rw [collect_freed, collect_reg]
    constructor
    · exact sweepSpec_length_lt reg
    · intro hlt
      by_contra hno
      have hall : ∀ d ∈ reg, d.refcount ≠ 0 := fun d hd h0 => hno ⟨d, hd, h0⟩
      rw [sweepSpec_of_no_zero reg hall] at hlt
      omega
  · intro hlog
    by_contra hfreed
    have hall : ∀ d ∈ reg, d.refcount ≠ 0 :=
      fun d hd h0 => hfreed ((collect_freed reg).2 ⟨d, hd, h0⟩)
    rw [collect_of_no_zero reg hall] at hlog
    exact hlog rfl

/-- C11: on a registry without a record of count 0, `collect` leaves the registry
unchanged, deallocates nothing and returns false; hence a sweep that follows a sweep changes
nothing, deallocates nothing and returns false. -/
theorem C11_collect_without_zero_is_noop (reg : List PtrDetails) :
    ((∀ d ∈ reg, d.refcount ≠ 0) → collect reg = { freed := false, reg := reg, log := [] }) ∧
    collect (collect reg).reg = { freed := false, reg := (collect reg).reg, log := [] } :=
  ⟨collect_of_no_zero reg,
   collect_of_no_zero _ (by rw [collect_reg]; exact fun d hd => sweepSpec_pos reg d hd)⟩

/-- Witness of C11: a registry with counts 2 and 1, and a second sweep after the sweep of a
registry that holds a count 0. -/
theorem C11_collect_without_zero_is_noop_witness :
    (∀ d ∈ [(⟨2, 5, false, 0⟩ : PtrDetails), ⟨1, 7, true, 3⟩], d.refcount ≠ 0) ∧
    collect [⟨2, 5, false, 0⟩, ⟨1, 7, true, 3⟩]
      = { freed := false, reg := [⟨2, 5, false, 0⟩, ⟨1, 7, true, 3⟩], log := [] } ∧
    collect (collect [⟨0, 5, false, 0⟩, ⟨1, 7, true, 3⟩]).reg
      = { freed := false, reg := (collect [⟨0, 5, false, 0⟩, ⟨1, 7, true, 3⟩]).reg, log := [] } :=
  ⟨by decide,
   (C11_collect_without_zero_is_noop [⟨2, 5, false, 0⟩, ⟨1, 7, true, 3⟩]).1 (by decide),
   (C11_collect_without_zero_is_noop [⟨0, 5, false, 0⟩, ⟨1, 7, true, 3⟩]).2⟩

/-- C12: whatever the counts, `shutdown` leaves the registry empty; every non-null address
that had a record is deallocated exactly once, and nothing else is deallocated. -/
theorem C12_shutdown_frees_every_address_once (reg : List PtrDetails) :
    (shutdown reg).1 = [] ∧
    (∀ a, a ≠ 0 → a ∈ reg.map PtrDetails.memPtr →
      (shutdown reg).2.countP (fun e => decide (e.addr = a)) = 1) ∧
    (∀ e ∈ (shutdown reg).2, e.addr ≠ 0 ∧ e.addr ∈ reg.map PtrDetails.memPtr) := by
  by_cases hlen : reg.length = 0
  · have hnil : reg = [] := List.length_eq_zero.1 hlen
    subst hnil
    simp [shutdown]
  · have hsh : shutdown reg = ((collect (reg.map zeroRec)).reg, (collect (reg.map zeroRec)).log) := by
      simp [shutdown, hlen]
    have hzero : ∀ d ∈ reg.map zeroRec, d.refcount = 0 := by
      intro d hd
      obtain ⟨x, _, rfl⟩ := List.mem_map.1 hd
      rfl
    have haddr : (reg.map zeroRec).map PtrDetails.memPtr = reg.map PtrDetails.memPtr := by
      rw [List.map_map]
      rfl
    rw [hsh]
    refine ⟨?_, ?_, ?_⟩
    · show (collect (reg.map zeroRec)).reg = []
      rw [collect_reg, List.eq_nil_iff_forall_not_mem]
      intro d hd
      obtain ⟨hmem, hno⟩ := (mem_sweepSpec _ _).1 hd
      exact hno d hmem (hzero d hmem) rfl
    · intro a ha hmem
      show (collect (reg.map zeroRec)).log.countP _ = 1
      rw [collect_log, countP_flatMap_deallocOf _ _ (zerosFirst_nodup _)]
      rw [← haddr] at hmem
      obtain ⟨z, hz, hza⟩ := List.mem_map.1 hmem
      obtain ⟨f, hf, hfz⟩ := zerosFirst_complete _ z hz (hzero z hz)
      have : a ∈ (zerosFirst (reg.map zeroRec)).map PtrDetails.memPtr :=
        List.mem_map.2 ⟨f, hf, by rw [hfz, hza]⟩
      simp [ha, this]
    · intro e he
      obtain ⟨f, hf, hf0, rfl⟩ := mem_collect_log _ e he
      refine ⟨hf0, ?_⟩
      rw [← haddr]
      exact List.mem_map.2 ⟨f, (mem_zerosFirst _ f hf).1, rfl⟩

/-- Witness of C12: two records for distinct allocations with counts 2 and 1. -/
theorem C12_shutdown_frees_every_address_once_witness :
    shutdown [⟨2, 5, false, 0⟩, ⟨1, 7, false, 0⟩] = ([], [⟨5, false⟩, ⟨7, false⟩]) ∧
    (shutdown [⟨2, 5, false, 0⟩, ⟨1, 7, false, 0⟩]).2.countP (fun e => decide (e.addr = 7)) = 1 :=
  ⟨by decide,
   (C12_shutdown_frees_every_address_once [⟨2, 5, false, 0⟩, ⟨1, 7, false, 0⟩]).2.1 7
     (by decide) (by decide)⟩

/-- C13 (fails on the code): wrapping an array allocation of size 10 at address 5 should
give a record and handles with `isArray = true` and `arraySize = 10`, and the last destroy
should release by `delete[]`. The constructor stops on the fresh address (lookup miss); the
record it would build is `PtrDetails(t)` with size 0; the handle it builds is scalar even
when the record already says array of 10; a copy of that handle resets the record to scalar;
and destroying the two handles releases address 5 by `delete`, not `delete[]`. -/
theorem C13_array_size_is_never_recorded :
    Pointer.ctor [] 5 = Except.error Fault.endDeref ∧
    PtrDetails.ctor 5 0 = ⟨1, 5, false, 0⟩ ∧
    Pointer.ctor [⟨1, 5, true, 10⟩] 5
      = Except.ok ([⟨2, 5, true, 10⟩], ⟨5, false, 0⟩) ∧
    Pointer.copyCtor [⟨1, 5, true, 10⟩] ⟨5, false, 0⟩
      = Except.ok ([⟨2, 5, false, 0⟩], ⟨5, false, 0⟩) ∧
    run [Op.copy 0, Op.destroy 0, Op.destroy 0]
        { reg := [⟨1, 5, true, 10⟩], handles := [⟨5, false, 0⟩], log := [] }
      = Except.ok { reg := [], handles := [], log := [⟨5, false⟩] } := by
  decide

/-- C14 (fails on the code): reassigning a handle from `t` should not deallocate `t`. With
the handle on address 5, its record of count 1, and `t = 5`, the destructor run by
`delete this` brings the count to 0 and its sweep deallocates address 5; the lookup of 5
that follows misses and the read through `end()` has no defined result. The same happens
when the registry holds other records. -/
theorem C14_reassign_from_current_address_deallocates_it :
    Pointer.assignRaw [⟨1, 5, false, 0⟩] ⟨5, false, 0⟩ 5
      = ([⟨5, false⟩], Except.error Fault.endDeref) ∧
    Pointer.assignRaw [⟨1, 5, false, 0⟩, ⟨2, 7, false, 0⟩] ⟨5, false, 0⟩ 5
      = ([⟨5, false⟩], Except.error Fault.endDeref) := by
  decide

/-- C15 (fails on the code): reassigning `h` (on address 5) from `rv` (on address 7) should
leave `h` on 7, the count of 7 one higher and the count of 5 one lower. With counts 2 and 2
the code leaves `h` on 5 and the count of 7 one lower; with counts 1 and 1 it deallocates
both 5 and 7 and removes both records while `h` and `rv` are live. Without a record for the
null address the local default-constructed handle stops the operation. -/
theorem C15_assign_from_handle_does_not_rebind :
    Pointer.assignPtr ⟨9, true, 4⟩ [⟨1, 0, false, 0⟩, ⟨2, 5, false, 0⟩, ⟨2, 7, false, 0⟩]
        ⟨5, false, 0⟩ ⟨7, false, 0⟩
      = ([], Except.ok
          { reg := [⟨1, 0, false, 0⟩, ⟨1, 5, false, 0⟩, ⟨1, 7, false, 0⟩],
            self := ⟨5, false, 0⟩, rv := ⟨7, false, 0⟩ }) ∧
    Pointer.assignPtr ⟨9, true, 4⟩ [⟨1, 0, false, 0⟩, ⟨1, 5, false, 0⟩, ⟨1, 7, false, 0⟩]
        ⟨5, false, 0⟩ ⟨7, false, 0⟩
      = ([⟨5, false⟩, ⟨7, false⟩], Except.ok
          { reg := [⟨1, 0, false, 0⟩], self := ⟨5, false, 0⟩, rv := ⟨7, false, 0⟩ }) ∧
    Pointer.assignPtr ⟨9, true, 4⟩ [⟨2, 5, false, 0⟩, ⟨2, 7, false, 0⟩]
        ⟨5, false, 0⟩ ⟨7, false, 0⟩
      = ([], Except.error Fault.endDeref) := by
  decide

/-- C16 (fails on the code): default construction should leave a handle on the null address
with `isArray = false`, `arraySize = 0`, and a null record that counts it. With a null
record of count 1 the registry is left as it was (count 1) and the handle keeps whatever its
storage held, where `Pointer(T*)` from null gives count 2 and the handle `(0, false, 0)`;
without a null record the temporary built by `Pointer(NULL);` stops the operation. -/
theorem C16_default_ctor_leaves_handle_unset (uninit : Pointer) :
    Pointer.defaultCtor uninit [⟨1, 0, false, 0⟩]
      = Except.ok ([⟨1, 0, false, 0⟩], uninit, []) ∧
    Pointer.ctor [⟨1, 0, false, 0⟩] 0
      = Except.ok ([⟨2, 0, false, 0⟩], ⟨0, false, 0⟩) ∧
    Pointer.defaultCtor uninit [] = Except.error Fault.endDeref ∧
    Pointer.defaultCtor uninit [⟨1, 5, false, 0⟩] = Except.error Fault.endDeref := by
  refine ⟨rfl, by decide, rfl, rfl⟩

/-- C17: on a registry with pairwise distinct addresses, `collect` (which rescans from the
beginning after each removal) gives the same registry, the same sequence of deallocations
and the same return value as the single front-to-back pass `singlePass`. -/
theorem C17_collect_equals_single_pass (reg : List PtrDetails)
    (hnd : (reg.map PtrDetails.memPtr).Nodup) : collect reg = singlePass reg := by
  apply CollectState.eq_of
  · rw [Bool.eq_iff_iff, collect_freed, singlePass_freed]
  · rw [collect_reg, singlePass_reg, sweepSpec_distinct reg hnd]
  · rw [collect_log, singlePass_log, zerosFirst_distinct reg hnd]

/-- Witness of C17: four records with distinct addresses, two of them with count 0. -/
theorem C17_collect_equals_single_pass_witness :
    ([(⟨1, 5, false, 0⟩ : PtrDetails), ⟨0, 7, true, 3⟩, ⟨2, 9, false, 0⟩,
      ⟨0, 11, false, 0⟩].map PtrDetails.memPtr).Nodup ∧
    collect [⟨1, 5, false, 0⟩, ⟨0, 7, true, 3⟩, ⟨2, 9, false, 0⟩, ⟨0, 11, false, 0⟩]
      = { freed := true, reg := [⟨1, 5, false, 0⟩, ⟨2, 9, false, 0⟩],
          log := [⟨7, true⟩, ⟨11, false⟩] } ∧
    collect [⟨1, 5, false, 0⟩, ⟨0, 7, true, 3⟩, ⟨2, 9, false, 0⟩, ⟨0, 11, false, 0⟩]
      = singlePass [⟨1, 5, false, 0⟩, ⟨0, 7, true, 3⟩, ⟨2, 9, false, 0⟩, ⟨0, 11, false, 0⟩] :=
  ⟨by decide, by decide,
   C17_collect_equals_single_pass
     [⟨1, 5, false, 0⟩, ⟨0, 7, true, 3⟩, ⟨2, 9, false, 0⟩, ⟨0, 11, false, 0⟩] (by decide)⟩

/-- C18: the deallocations of `collect` are, for each record of count 0 at which a scan
stops and in that order, one deallocation of its address when the address is not null
(`delete[]` exactly when its `isArray` is true, `delete` otherwise) and none when it is
null; every such record is a record of the registry with count 0; and no address of a
record that survives the sweep is deallocated. -/
theorem C18_collect_deallocates_found_records (reg : List PtrDetails) :
    (collect reg).log
      = (collectFound (reg.length + 1) reg).flatMap
          (fun d => if d.memPtr ≠ 0 then [{ addr := d.memPtr, array := d.isArray }] else []) ∧
    (∀ d ∈ collectFound (reg.length + 1) reg, d ∈ reg ∧ d.refcount = 0) ∧
    (∀ e ∈ (collect reg).log, ∀ r ∈ (collect reg).reg, r.memPtr ≠ e.addr) := by
  refine ⟨?_, ?_, ?_⟩
  · unfold collect
    rw [collectLoop_log]
    simp only [List.nil_append]
    rfl
  · intro d hd
    rw [collectFound_eq _ _ (by omega)] at hd
    exact mem_zerosFirst reg d hd
  · intro e he r hr hre
    obtain ⟨f, hf, _, rfl⟩ := mem_collect_log reg e he
    obtain ⟨hfm, hf0⟩ := mem_zerosFirst reg f hf
    rw [collect_reg] at hr
    exact ((mem_sweepSpec reg r).1 hr).2 f hfm hf0 hre.symm

/-- C19: a scan of `collect` that stops at a record is followed by the removal of at least
one record; so whatever number of scans is allowed the loop performs at most `length + 1`
of them; with more than `length` scans allowed it ends because a scan reached `end()`, with
the result `collect reg`, in which no record of count 0 is left. -/
theorem C19_collect_terminates (reg : List PtrDetails) :
    (∀ d, scanZero reg = some d → (listRemove d reg).length < reg.length) ∧
    (∀ n, collectScans n reg ≤ reg.length + 1) ∧
    (∀ n, reg.length < n →
      collectLoop n { freed := false, reg := reg, log := [] } = collect reg ∧
      collectScans n reg = (collectFound n reg).length + 1) ∧
    scanZero (collect reg).reg = none :=
  ⟨fun d hd => listRemove_length_lt d reg (scanZero_some reg d hd).1,
   fun n => collectScans_le n reg,
   fun n hn => ⟨collectLoop_fuel n (reg.length + 1) _ hn (by simp), collectScans_eq n reg hn⟩,
   collect_done reg⟩

/-- C20 as written fails: the sweep finds a record of count 0 whose address is null,
removes both records with that address, and deallocates nothing. -/
theorem C20_counterexample :
    collect [⟨0, 0, false, 0⟩, ⟨2, 0, true, 1⟩] = { freed := true, reg := [], log := [] } ∧
    (collect [⟨0, 0, false, 0⟩, ⟨2, 0, true, 1⟩]).log.countP (fun e => decide (e.addr = 0)) ≠ 1 := by
  decide

/-- C20 (amended): when the registry holds a record `z` of count 0, `collect` removes every
record whose address is the address of `z`, whatever its count; that address is deallocated
exactly once when it is not null and never when it is null; the kind of that deallocation
is the `isArray` of the first record of the registry with count 0 and that address, which is
the record at which the scan stopped. -/
theorem C20_collect_removes_by_address (reg : List PtrDetails) (z : PtrDetails)
    (hz : z ∈ reg) (hz0 : z.refcount = 0) :
    (∀ r ∈ reg, r.memPtr = z.memPtr → r ∉ (collect reg).reg) ∧
    (z.memPtr ≠ 0 → (collect reg).log.countP (fun e => decide (e.addr = z.memPtr)) = 1) ∧
    (z.memPtr = 0 → (collect reg).log.countP (fun e => decide (e.addr = z.memPtr)) = 0) ∧
    (∀ e ∈ (collect reg).log, e.addr = z.memPtr →
      ∃ f ∈ collectFound (reg.length + 1) reg,
        reg.find? (fun x => decide (x.refcount = 0) && decide (x.memPtr = z.memPtr)) = some f ∧
        e.array = f.isArray) := by
  obtain ⟨f0, hf0, hf0z⟩ := zerosFirst_complete reg z hz hz0
  have hin : z.memPtr ∈ (zerosFirst reg).map PtrDetails.memPtr := List.mem_map.2 ⟨f0, hf0, hf0z⟩
  refine ⟨?_, ?_, ?_, ?_⟩
  · intro r _ hrz hr
    rw [collect_reg] at hr
    exact ((mem_sweepSpec reg r).1 hr).2 z hz hz0 hrz.symm
  · intro hne
    rw [collect_log, countP_flatMap_deallocOf _ _ (zerosFirst_nodup _)]
    simp [hne, hin]
  · intro hnull
    rw [collect_log, countP_flatMap_deallocOf _ _ (zerosFirst_nodup _)]
    simp [hnull]
  · intro e he hez
    obtain ⟨f, hf, _, rfl⟩ := mem_collect_log reg e he
    refine ⟨f, by rw [collectFound_eq _ _ (by omega)]; exact hf, ?_, rfl⟩
    have := zerosFirst_first reg f hf
    simp only at hez
    rw [hez] at this
    exact this

/-- Witness of C20 (amended): two records with the address 5, the first with count 2 and
`isArray`, the second with count 0 and scalar; both are removed, and 5 is deallocated once,
by `delete`. -/
theorem C20_collect_removes_by_address_witness :
    (⟨0, 5, false, 0⟩ : PtrDetails) ∈
      [(⟨2, 5, true, 4⟩ : PtrDetails), ⟨0, 5, false, 0⟩, ⟨1, 7, false, 0⟩] ∧
    (⟨0, 5, false, 0⟩ : PtrDetails).refcount = 0 ∧
    collect [⟨2, 5, true, 4⟩, ⟨0, 5, false, 0⟩, ⟨1, 7, false, 0⟩]
      = { freed := true, reg := [⟨1, 7, false, 0⟩], log := [⟨5, false⟩] } ∧
    (∀ r ∈ [(⟨2, 5, true, 4⟩ : PtrDetails), ⟨0, 5, false, 0⟩, ⟨1, 7, false, 0⟩],
      r.memPtr = 5 →
      r ∉ (collect [⟨2, 5, true, 4⟩, ⟨0, 5, false, 0⟩, ⟨1, 7, false, 0⟩]).reg) ∧
    (collect [⟨2, 5, true, 4⟩, ⟨0, 5, false, 0⟩, ⟨1, 7, false, 0⟩]).log.countP
      (fun e => decide (e.addr = 5)) = 1 :=
  ⟨by decide, rfl, by decide,
   (C20_collect_removes_by_address [⟨2, 5, true, 4⟩, ⟨0, 5, false, 0⟩, ⟨1, 7, false, 0⟩]
     ⟨0, 5, false, 0⟩ (by decide) rfl).1,
   (C20_collect_removes_by_address [⟨2, 5, true, 4⟩, ⟨0, 5, false, 0⟩, ⟨1, 7, false, 0⟩]
     ⟨0, 5, false, 0⟩ (by decide) rfl).2.1 (by decide)⟩

end GC
